import Mathlib

set_option maxRecDepth 8000

/-!
Shallow embedding of `src/app.py`: a Flask application that resolves a
YouTube URL to a video id, fetches the transcript, asks an LLM for a
structured JSON analysis, and answers follow-up questions.

The two external services (the transcript API and the Gemini LLM) are
modelled as oracles passed in as explicit parameters: a call outcome is a
value of an `Except` type.  All pure string processing that `app.py`
performs — `json.loads` with the iterative-trimming recovery, `str.strip`,
`str.find`/`str.rfind`, slicing, `urllib.parse.urlparse`, `parse_qs` —
is embedded from the CPython standard-library code the app calls
(`json/decoder.py` reference scanner, `urllib/parse.py`).

Machine integers do not occur (Python ints are unbounded); positions are
`Nat`.  Characters: Python strings may contain lone surrogates (via
`\uXXXX` escapes); Lean `Char` cannot, so a decoded lone surrogate is
represented by U+FFFD.  No claim below depends on that corner.
-/

/-- The `{` character, written via its code point throughout. -/
def lbrace : Char := Char.ofNat 123

/-- The `}` character. -/
def rbrace : Char := Char.ofNat 125

/-- Python `str.strip()` whitespace (ASCII part: space, \t, \n, \r, \x0b, \x0c).
Python also strips some Unicode spaces; no input in this development contains
them. -/
def isPyWs (c : Char) : Bool :=
  c = ' ' || c = '\t' || c = '\n' || c = '\r' || c = Char.ofNat 11 || c = Char.ofNat 12

/-- Core of Python `str.strip()`. -/
def stripList (l : List Char) : List Char :=
  ((l.dropWhile isPyWs).reverse.dropWhile isPyWs).reverse

/-- Python `str.strip()`. -/
def pyStrip (s : String) : String := String.mk (stripList s.data)

/-- First index of a character satisfying `p` (Python `str.find` when some). -/
def findIdxA (p : Char → Bool) : List Char → Option Nat
  | [] => none
  | c :: cs => if p c then some 0 else (findIdxA p cs).map (· + 1)

/-- Python `s.find(c)`, with -1 modelled as `none`. -/
def strFind (s : String) (c : Char) : Option Nat := findIdxA (· == c) s.data

/-- Python `s.rfind(c)`, with -1 modelled as `none`. -/
def strRFind (s : String) (c : Char) : Option Nat :=
  (findIdxA (· == c) s.data.reverse).map (fun k => s.data.length - 1 - k)

/-- Python `s[:n]` for `0 ≤ n`. -/
def strTake (n : Nat) (s : String) : String := String.mk (s.data.take n)

/-- Python `s[a:b]` for `0 ≤ a ≤ b` (the only use sites in `app.py` satisfy this). -/
def pySlice (s : String) (a b : Nat) : String := String.mk ((s.data.drop a).take (b - a))

/-! ## JSON values and the CPython `json.decoder` scanner

`json.loads` is embedded from the pure-Python reference scanner in
`json/decoder.py` (`py_scanstring`, `JSONObject`, `JSONArray`,
`py_make_scanner`), which the default C scanner mirrors.  Numbers are kept
as their matched literal text (float semantics are irrelevant to every use
below); `NaN`/`Infinity`/`-Infinity` (accepted by default `parse_constant`)
are kept as literals too.  Python builds a `dict` from the member pairs
(first-insertion order, last duplicate value wins), modelled by
`dictPairs`. -/

inductive Json where
  | null
  | bool (b : Bool)
  | str (s : String)
  | num (lit : String)
  | arr (elems : List Json)
  | obj (pairs : List (String × Json))

/-- Attributes of Python's `json.JSONDecodeError`: message, document, position. -/
structure JsonError where
  msg : String
  doc : String
  pos : Nat
deriving DecidableEq

/-- Internal scanner failure: `StopIteration(idx)` (converted to
"Expecting value" by callers), a `JSONDecodeError`, or fuel exhaustion
(the analogue of Python's `RecursionError`; unreachable at the fuel
`doc.length + 2` used below since each nesting level consumes a character). -/
inductive ScanErr where
  | stop (idx : Nat)
  | dec (msg : String) (pos : Nat)
  | fuel
deriving DecidableEq

/-- JSON whitespace (the `WHITESPACE` regex `[ \t\n\r]*`). -/
def isJsonWs (c : Char) : Bool := c = ' ' || c = '\t' || c = '\n' || c = '\r'

/-- Length of the leading whitespace run. -/
def countWs : List Char → Nat
  | [] => 0
  | c :: cs => if isJsonWs c then countWs cs + 1 else 0

/-- `_w(s, i).end()`: index of the first non-whitespace character at or after `i`. -/
def skipWs (doc : List Char) (i : Nat) : Nat := i + countWs (doc.drop i)

/-- Terminator class of the `STRINGCHUNK` regex: `"` , `\` or a control character. -/
def isStrTerm (c : Char) : Bool := c = '"' || c = '\\' || c.toNat < 32

/-- The `BACKSLASH` escape table of `json/decoder.py`. -/
def escTable (c : Char) : Option Char :=
  if c = '"' then some '"'
  else if c = '\\' then some '\\'
  else if c = '/' then some '/'
  else if c = 'b' then some (Char.ofNat 8)
  else if c = 'f' then some (Char.ofNat 12)
  else if c = 'n' then some '\n'
  else if c = 'r' then some '\r'
  else if c = 't' then some '\t'
  else none

def isHexDig (c : Char) : Bool :=
  c.isDigit || ('a' ≤ c && c ≤ 'f') || ('A' ≤ c && c ≤ 'F')

def hexVal (c : Char) : Nat :=
  if c.isDigit then c.toNat - 48 else if 'a' ≤ c then c.toNat - 87 else c.toNat - 55

/-- `_decode_uXXXX`: four hex digits (the strict form enforced by the default
C scanner; the pure-Python `int(esc, 16)` would additionally accept a few
exotic spellings such as a sign, not relied upon anywhere). -/
def hex4 : List Char → Option Nat
  | [a, b, c, d] =>
    if isHexDig a && isHexDig b && isHexDig c && isHexDig d then
      some (((hexVal a * 16 + hexVal b) * 16 + hexVal c) * 16 + hexVal d)
    else none
  | _ => none

/-- `chr(n)`, with a lone surrogate represented by U+FFFD (see header note). -/
def chrSafe (n : Nat) : Char :=
  if n.isValidChar then Char.ofNat n else Char.ofNat 0xFFFD

/-- The scan loop of `scanstring` (C scanner `scanstring_unicode`, which is
what `json.loads` runs by default — observed on CPython 3.11): `begin_` is
the index of the opening quote, `end_` the current scan position, `acc` the
accumulated chunks.  One unit of fuel per loop iteration; each iteration
consumes at least one character, so `doc.length + 1` fuel never runs out. -/
def scanStringLoop (doc : List Char) (begin_ : Nat) :
    Nat → List Char → Nat → Except ScanErr (String × Nat)
  | 0, _, _ => .error .fuel
  | f + 1, acc, end_ =>
    match findIdxA isStrTerm (doc.drop end_) with
    | none => .error (.dec "Unterminated string starting at" begin_)
    | some k =>
      let content := (doc.drop end_).take k
      let term := (doc.drop (end_ + k)).headD ' '
      if term.toNat < 32 then .error (.dec "Invalid control character at" (end_ + k))
      else
        let nend := end_ + k + 1
        if term = '"' then .ok (String.mk (acc ++ content), nend)
        else
          match doc[nend]? with
          | none => .error (.dec "Unterminated string starting at" begin_)
          | some esc =>
            if esc ≠ 'u' then
              match escTable esc with
              | none => .error (.dec "Invalid \\escape" (nend - 1))
              | some ch => scanStringLoop doc begin_ f (acc ++ content ++ [ch]) (nend + 1)
            else
              match hex4 ((doc.drop (nend + 1)).take 4) with
              | none => .error (.dec "Invalid \\uXXXX escape" nend)
              | some uni =>
                let e5 := nend + 5
                if 0xd800 ≤ uni ∧ uni ≤ 0xdbff ∧ (doc.drop e5).take 2 = ['\\', 'u'] then
                  match hex4 ((doc.drop (e5 + 2)).take 4) with
                  | none => .error (.dec "Invalid \\uXXXX escape" (e5 + 1))
                  | some uni2 =>
                    if 0xdc00 ≤ uni2 ∧ uni2 ≤ 0xdfff then
                      scanStringLoop doc begin_ f
                        (acc ++ content ++ [chrSafe (0x10000 + (uni - 0xd800) * 1024 + (uni2 - 0xdc00))])
                        (e5 + 6)
                    else scanStringLoop doc begin_ f (acc ++ content ++ [chrSafe uni]) e5
                else scanStringLoop doc begin_ f (acc ++ content ++ [chrSafe uni]) e5

/-- `py_scanstring(s, end)` where `end` is the index just after the opening quote. -/
def scanStr (doc : List Char) (end0 : Nat) : Except ScanErr (String × Nat) :=
  scanStringLoop doc (end0 - 1) (doc.length + 1) [] end0

/-- The `NUMBER_RE` regex `(-?(?:0|[1-9]\d*))(\.\d+)?([eE][-+]?\d+)?` matched
at `idx`; returns the matched literal and the index after it. -/
def numFracExp (t : List Char) : List Char :=
  let frac : List Char :=
    match t with
    | '.' :: u => let ds := u.takeWhile Char.isDigit; if ds = [] then [] else '.' :: ds
    | _ => []
  let t2 := t.drop frac.length
  let ex : List Char :=
    match t2 with
    | c :: u =>
      if c = 'e' || c = 'E' then
        match u with
        | s :: v =>
          if s = '+' || s = '-' then
            let ds := v.takeWhile Char.isDigit
            if ds = [] then [] else c :: s :: ds
          else
            let ds := u.takeWhile Char.isDigit
            if ds = [] then [] else c :: ds
        | [] => []
      else []
    | [] => []
  frac ++ ex

def scanNumber (doc : List Char) (idx : Nat) : Option (String × Nat) :=
  let s := doc.drop idx
  let sgn : List Char := if s.headD ' ' = '-' then ['-'] else []
  let s1 := s.drop sgn.length
  let ipart : List Char :=
    match s1 with
    | '0' :: _ => ['0']
    | c :: _ => if c.isDigit then s1.takeWhile Char.isDigit else []
    | [] => []
  if ipart = [] then none
  else
    let lit := sgn ++ ipart ++ numFracExp (s1.drop ipart.length)
    some (String.mk lit, idx + lit.length)

/-- `s[idx:idx+len(lit)] == lit`. -/
def litAt (doc : List Char) (idx : Nat) (lit : List Char) : Bool :=
  (doc.drop idx).take lit.length == lit

/-- `dict(pairs)`: first-insertion order, last value for a duplicate key wins. -/
def dictInsert (d : List (String × Json)) (k : String) (v : Json) : List (String × Json) :=
  if d.any (fun p => p.1 == k) then d.map (fun p => if p.1 == k then (p.1, v) else p)
  else d ++ [(k, v)]

def dictPairs (ps : List (String × Json)) : List (String × Json) :=
  ps.foldl (fun d p => dictInsert d p.1 p.2) []

/-- The member loop of the C scanner's `_parse_object_unicode`: each iteration
starts at the (post-whitespace) position where the next key's opening quote
must sit.  `sv` is `scan_once` at the enclosing nesting level. -/
def objLoop (sv : Nat → Except ScanErr (Json × Nat)) (doc : List Char) :
    Nat → List (String × Json) → Nat → Except ScanErr (List (String × Json) × Nat)
  | 0, _, _ => .error .fuel
  | f + 1, pairs, idx =>
    if doc[idx]? ≠ some '"' then
      .error (.dec "Expecting property name enclosed in double quotes" idx)
    else
      match scanStr doc (idx + 1) with
      | .error e => .error e
      | .ok (key, e1) =>
        let e2 := skipWs doc e1
        if doc[e2]? ≠ some ':' then .error (.dec "Expecting ':' delimiter" e2)
        else
          let e3 := skipWs doc (e2 + 1)
          match sv e3 with
          | .error (.stop i) => .error (.dec "Expecting value" i)
          | .error e => .error e
          | .ok (value, e4) =>
            let e5 := skipWs doc e4
            let pairs2 := pairs ++ [(key, value)]
            if doc[e5]? = some rbrace then .ok (dictPairs pairs2, e5 + 1)
            else if doc[e5]? ≠ some ',' then .error (.dec "Expecting ',' delimiter" e5)
            else objLoop sv doc f pairs2 (skipWs doc (e5 + 1))

/-- Object parsing entry: `end_` is the index just after `{`; skip whitespace,
return the empty object on an immediate `}`, otherwise run the member loop. -/
def scanObject (sv : Nat → Except ScanErr (Json × Nat)) (doc : List Char) (end_ : Nat) :
    Except ScanErr (List (String × Json) × Nat) :=
  let e1 := skipWs doc end_
  if doc[e1]? = some rbrace then .ok ([], e1 + 1)
  else objLoop sv doc (doc.length + 1) [] e1

/-- The element loop of the C scanner's `_parse_array_unicode`: each iteration
scans one value then looks for `]` or `,` after whitespace. -/
def arrLoop (sv : Nat → Except ScanErr (Json × Nat)) (doc : List Char) :
    Nat → List Json → Nat → Except ScanErr (List Json × Nat)
  | 0, _, _ => .error .fuel
  | f + 1, vals, idx =>
    match sv idx with
    | .error (.stop i) => .error (.dec "Expecting value" i)
    | .error e => .error e
    | .ok (v, e1) =>
      let vals2 := vals ++ [v]
      let e2 := skipWs doc e1
      if doc[e2]? = some ']' then .ok (vals2, e2 + 1)
      else if doc[e2]? ≠ some ',' then .error (.dec "Expecting ',' delimiter" e2)
      else arrLoop sv doc f vals2 (skipWs doc (e2 + 1))

/-- Array parsing entry: `end_` is the index just after `[`. -/
def scanArray (sv : Nat → Except ScanErr (Json × Nat)) (doc : List Char) (end_ : Nat) :
    Except ScanErr (List Json × Nat) :=
  let e1 := skipWs doc end_
  if doc[e1]? = some ']' then .ok (([] : List Json), e1 + 1)
  else arrLoop sv doc (doc.length + 1) [] e1

/-- `_scan_once(string, idx)`. Fuel decreases only with nesting depth; each
nesting level consumes at least one character, so `doc.length + 2` suffices. -/
def scanOnce (doc : List Char) : Nat → Nat → Except ScanErr (Json × Nat)
  | 0, _ => .error .fuel
  | f + 1, idx =>
    match doc[idx]? with
    | none => .error (.stop idx)
    | some c =>
      if c = '"' then
        match scanStr doc (idx + 1) with
        | .ok (s, e) => .ok (.str s, e)
        | .error e => .error e
      else if c = lbrace then
        match scanObject (fun i => scanOnce doc f i) doc (idx + 1) with
        | .ok (ps, e) => .ok (.obj ps, e)
        | .error e => .error e
      else if c = '[' then
        match scanArray (fun i => scanOnce doc f i) doc (idx + 1) with
        | .ok (vs, e) => .ok (.arr vs, e)
        | .error e => .error e
      else if litAt doc idx "null".data then .ok (.null, idx + 4)
      else if litAt doc idx "true".data then .ok (.bool true, idx + 4)
      else if litAt doc idx "false".data then .ok (.bool false, idx + 5)
      else
        match scanNumber doc idx with
        | some (lit, e) => .ok (.num lit, e)
        | none =>
          if litAt doc idx "NaN".data then .ok (.num "NaN", idx + 3)
          else if litAt doc idx "Infinity".data then .ok (.num "Infinity", idx + 8)
          else if litAt doc idx "-Infinity".data then .ok (.num "-Infinity", idx + 9)
          else .error (.stop idx)

/-- `json.loads(s)`: `JSONDecoder.decode` = `raw_decode` after leading
whitespace, then an "Extra data" check after trailing whitespace. -/
def jsonLoads (s : String) : Except JsonError Json :=
  let doc := s.data
  let i0 := skipWs doc 0
  match scanOnce doc (doc.length + 2) i0 with
  | .error (.stop i) => .error ⟨"Expecting value", s, i⟩
  | .error (.dec m p) => .error ⟨m, s, p⟩
  | .error .fuel => .error ⟨"maximum recursion depth exceeded", s, 0⟩
  | .ok (v, e) =>
    let e2 := skipWs doc e
    if e2 = doc.length then .ok v else .error ⟨"Extra data", s, e2⟩

/-! ## The JSON recovery of `analyze_transcript` (src/app.py lines 80–106)

`jsonRecover` is the pure core: given the (already stripped) raw LLM text it
either finds boundaries and parses/trims, or reports the no-boundaries error;
`errExhausted` carries the `JSONDecodeError` bound to `e_inner` in the code
(the one raised by the first `json.loads(json_string)` attempt). -/

inductive RResult where
  | ok (a : Json)
  | errNoBounds
  | errExhausted (e : JsonError)

/-- The `while temp_string:` trimming loop, processed on the reversed
candidate so that removing the final character is structural.
`trimLoopRev e l` is the loop state where `temp_string = l.reverse`. -/
def trimLoopRev (e : JsonError) : List Char → RResult
  | [] => .errExhausted e
  | c :: rest =>
    match jsonLoads (String.mk ((c :: rest).reverse)) with
    | .ok a => .ok a
    | .error _ => trimLoopRev e rest

/-- The trimming loop started at `temp_string = json_string = s`. -/
def trimLoop (e : JsonError) (s : String) : RResult := trimLoopRev e s.data.reverse

/-- Lines 81–100 of `app.py`: find the first `{` and last `}`, slice, strict
parse, then iterative trimming on failure. -/
def jsonRecover (raw : String) : RResult :=
  match strFind raw lbrace, strRFind raw rbrace with
  | some si, some ei =>
    if si < ei then
      let json_string := pySlice raw si (ei + 1)
      match jsonLoads json_string with
      | .ok a => .ok a
      | .error e => trimLoop e json_string
    else .errNoBounds
  | _, _ => .errNoBounds

/-- `doc.count('\n', 0, pos)` — for JSONDecodeError's `lineno`. -/
def countNl (l : List Char) : Nat := l.countP (fun c => c == '\n')

/-- JSONDecodeError's `colno`: `pos - doc.rfind('\n', 0, pos)`
(`pos + 1` when there is no newline before `pos`). -/
def colNo (doc : List Char) (pos : Nat) : Nat :=
  match findIdxA (· == '\n') ((doc.take pos).reverse) with
  | none => pos + 1
  | some k => k + 1

/-- `str(e)` for a JSONDecodeError: `msg: line L column C (char P)`. -/
def formatErr (e : JsonError) : String :=
  e.msg ++ ": line " ++ toString (countNl (e.doc.data.take e.pos) + 1) ++ " column "
    ++ toString (colNo e.doc.data e.pos) ++ " (char " ++ toString e.pos ++ ")"

/-- The dictionary `analyze_transcript` actually returns for each recovery
outcome (lines 89, 100, 103 of `app.py`). -/
def analysisOf : RResult → Json
  | .ok a => a
  | .errNoBounds => .obj [("error", .str "The model's response did not contain valid JSON.")]
  | .errExhausted e =>
    .obj [("error", .str ("The model's response was not valid JSON after refinement: " ++ formatErr e))]

/-- `analyze_transcript(transcript)`.  The prompt only embeds the transcript;
the outcome of the single `gemini_model.generate_content` call is the oracle
`llm` (`.error e` models any exception from the call or from `response.text`,
caught by the outer handler at line 108 and turned into `{error: str(e)}`).
On success the raw text is stripped and fed to the JSON recovery. -/
def analyze_transcript (llm : Except String String) (transcript : String) : Json :=
  match llm with
  | .error e => .obj [("error", .str e)]
  | .ok text => analysisOf (jsonRecover (pyStrip text))

/-! ## `urllib.parse` (CPython 3.11 `urllib/parse.py`)

`extract_video_id` uses `urlparse(url)` and reads `.hostname`, `.path`,
`.query`, plus `parse_qs`.  Embedded below: WHATWG pre-stripping, unsafe-byte
removal, scheme split, netloc split with the bracket checks, fragment and
query splits, `;`-params split, the `hostname` property, `parse_qs` with
`unquote`.  Two stdlib paths raise `ValueError` or are deliberately left
out of scope and quarantined behind `UrlErr.unmodelled` (no theorem below
ever reaches them): validation of a *bracketed* host (`_check_bracketed_host`,
needs `ipaddress`), and the NFKC check of a *non-ASCII* netloc
(`_checknetloc`, needs `unicodedata`).  Python's `str.lower()` is full
Unicode; ASCII lowering suffices for every hostname compared here. -/

/-- `_WHATWG_C0_CONTROL_OR_SPACE` membership. -/
def isC0OrSpace (c : Char) : Bool := c.toNat ≤ 32

/-- `_UNSAFE_URL_BYTES_TO_REMOVE` membership (tab, CR, LF). -/
def isUnsafeUrlByte (c : Char) : Bool := c = '\t' || c = '\r' || c = '\n'

/-- `scheme_chars` membership. -/
def isSchemeChar (c : Char) : Bool := c.isAlpha || c.isDigit || c = '+' || c = '-' || c = '.'

/-- ASCII `str.lower()`. -/
def lowerChar (c : Char) : Char :=
  if 'A' ≤ c && c ≤ 'Z' then Char.ofNat (c.toNat + 32) else c

/-- `url.lstrip(_WHATWG_C0_CONTROL_OR_SPACE)` followed by removal of the
unsafe bytes, as at the top of `urlsplit`. -/
def urlPre (url : String) : List Char :=
  (url.data.dropWhile isC0OrSpace).filter (fun c => !isUnsafeUrlByte c)

/-- The scheme detection of `urlsplit`: first `:` with a positive index, an
ASCII-alphabetic first character, and only `scheme_chars` before it. -/
def schemeSplit (u : List Char) : List Char × List Char :=
  match findIdxA (· == ':') u with
  | some i =>
    if 0 < i ∧ (u.headD ' ').isAlpha ∧ (u.take i).all isSchemeChar then
      ((u.take i).map lowerChar, u.drop (i + 1))
    else ([], u)
  | none => ([], u)

def isNetlocDelim (c : Char) : Bool := c = '/' || c = '?' || c = '#'

def urlAfterScheme (url : String) : List Char := (schemeSplit (urlPre url)).2

def urlScheme (url : String) : List Char := (schemeSplit (urlPre url)).1

/-- The netloc `_splitnetloc` would produce (empty when the url does not
continue with `//`). -/
def urlNetloc (url : String) : List Char :=
  let u := urlAfterScheme url
  if u.take 2 = ['/', '/'] then (u.drop 2).takeWhile (fun c => !isNetlocDelim c) else []

/-- The unbalanced-bracket test that makes `urlsplit` raise
`ValueError("Invalid IPv6 URL")`. -/
def netlocBad (nl : List Char) : Bool :=
  (nl.any (· == '[') && !nl.any (· == ']')) || (nl.any (· == ']') && !nl.any (· == '['))

inductive UrlErr where
  | invalidIPv6
  | indexError
  | unmodelled (what : String)
deriving DecidableEq

structure SplitRes where
  scheme : List Char
  netloc : List Char
  path : List Char
  query : List Char
  fragment : List Char

/-- `urlsplit(url)` (with default `scheme=''`, `allow_fragments=True`). -/
def pyUrlsplit (url : String) : Except UrlErr SplitRes :=
  let u := urlAfterScheme url
  let scheme := urlScheme url
  let netloc := urlNetloc url
  let u2 := if u.take 2 = ['/', '/'] then (u.drop 2).dropWhile (fun c => !isNetlocDelim c) else u
  if netlocBad netloc then .error .invalidIPv6
  else if netloc.any (· == '[') then .error (.unmodelled "bracketed host validation")
  else if !netloc.all (fun c => c.toNat < 128) then .error (.unmodelled "non-ASCII netloc NFKC check")
  else
    let u3 := if u2.any (· == '#') then u2.takeWhile (· ≠ '#') else u2
    let fragment := if u2.any (· == '#') then (u2.dropWhile (· ≠ '#')).drop 1 else []
    let path := if u3.any (· == '?') then u3.takeWhile (· ≠ '?') else u3
    let query := if u3.any (· == '?') then (u3.dropWhile (· ≠ '?')).drop 1 else []
    .ok ⟨scheme, netloc, path, query, fragment⟩

/-- First index of `p` at or after `start` (`str.find(c, start)`). -/
def findIdxFrom (p : Char → Bool) (l : List Char) (start : Nat) : Option Nat :=
  (findIdxA p (l.drop start)).map (· + start)

/-- Last index of `p` (`str.rfind`). -/
def rfindIdx (p : Char → Bool) (l : List Char) : Option Nat :=
  (findIdxA p l.reverse).map (fun k => l.length - 1 - k)

/-- `_splitparams(url)`. -/
def splitparams (url : List Char) : List Char × List Char :=
  let i : Option Nat :=
    if url.any (· == '/') then
      match rfindIdx (· == '/') url with
      | some r => findIdxFrom (· == ';') url r
      | none => none
    else findIdxA (· == ';') url
  match i with
  | none => (url, [])
  | some i => (url.take i, url.drop (i + 1))

/-- `uses_params` (CPython 3.11). -/
def usesParams : List (List Char) :=
  ["", "ftp", "hdl", "prospero", "http", "imap", "https", "shttp", "rtsp",
   "rtsps", "rtspu", "sip", "sips", "mms", "sftp", "tel"].map String.data

structure ParseRes where
  scheme : List Char
  netloc : List Char
  path : List Char
  params : List Char
  query : List Char
  fragment : List Char

/-- `urlparse(url)`. -/
def pyUrlparse (url : String) : Except UrlErr ParseRes :=
  match pyUrlsplit url with
  | .error e => .error e
  | .ok r =>
    if usesParams.contains r.scheme ∧ r.path.any (· == ';') then
      let ps := splitparams r.path
      .ok ⟨r.scheme, r.netloc, ps.1, ps.2, r.query, r.fragment⟩
    else .ok ⟨r.scheme, r.netloc, r.path, [], r.query, r.fragment⟩

/-- `netloc.rpartition(sep)[2]`: suffix after the last `sep` (whole list if absent). -/
def afterLast (sep : Char) (l : List Char) : List Char :=
  match rfindIdx (· == sep) l with
  | none => l
  | some i => l.drop (i + 1)

/-- `partition(sep)[0]`. -/
def beforeFirst (sep : Char) (l : List Char) : List Char := l.takeWhile (· ≠ sep)

/-- `partition(sep)[2]` when `sep` occurs. -/
def afterFirstOpt (sep : Char) (l : List Char) : Option (List Char) :=
  if l.any (· == sep) then some ((l.dropWhile (· ≠ sep)).drop 1) else none

/-- The `hostname` property: `_hostinfo[0]`, `None` when empty, lowercased
except for a `%`-zone suffix. -/
def prHostname (netloc : List Char) : Option String :=
  let hostinfo := afterLast '@' netloc
  let hostname :=
    match afterFirstOpt '[' hostinfo with
    | some bracketed => beforeFirst ']' bracketed
    | none => beforeFirst ':' hostinfo
  if hostname = [] then none
  else
    let pre := beforeFirst '%' hostname
    some (String.mk (pre.map lowerChar ++ hostname.drop pre.length))

/-! ### `parse_qs` / `unquote` -/

/-- `str.split(sep)` (no maxsplit; `sep` a single character here). -/
def splitOnChar (sep : Char) : List Char → List (List Char)
  | [] => [[]]
  | c :: cs =>
    match splitOnChar sep cs with
    | [] => [[]]
    | h :: t => if c = sep then [] :: h :: t else (c :: h) :: t

/-- `str.split(sep, 1)` as `none` (no separator) or the two parts. -/
def splitOnFirst (sep : Char) : List Char → Option (List Char × List Char)
  | [] => none
  | c :: cs =>
    if c = sep then some ([], cs)
    else (splitOnFirst sep cs).map (fun p => (c :: p.1, p.2))

def isAsciiC (c : Char) : Bool := c.toNat < 128

/-- Maximal runs of ASCII/non-ASCII characters (the `_asciire.split` of
`unquote`: only ASCII runs are percent-decoded). -/
def groupRuns : List Char → List (Bool × List Char)
  | [] => []
  | c :: cs =>
    match groupRuns cs with
    | [] => [(isAsciiC c, [c])]
    | (b, run) :: rest =>
      if isAsciiC c = b then (b, c :: run) :: rest
      else (isAsciiC c, [c]) :: (b, run) :: rest

/-- `unquote_to_bytes` on an ASCII run: split on `%`, a valid hex pair
becomes a byte, otherwise the `%` is kept literally. -/
def pctBytes (run : List Char) : List Nat :=
  match splitOnChar '%' run with
  | [] => []
  | first :: parts =>
    first.map Char.toNat ++ parts.flatMap (fun item =>
      match item with
      | a :: b :: rest =>
        if isHexDig a && isHexDig b then (hexVal a * 16 + hexVal b) :: rest.map Char.toNat
        else 37 :: item.map Char.toNat
      | _ => 37 :: item.map Char.toNat)

def isContB (b : Nat) : Bool := 128 ≤ b && b < 192

/-- `bytes.decode('utf-8', errors='replace')`: standard UTF-8 decoding with
one U+FFFD per maximal ill-formed subpart. -/
def utf8Replace : List Nat → List Char
  | [] => []
  | b :: rest =>
    if b < 128 then Char.ofNat b :: utf8Replace rest
    else if 194 ≤ b && b ≤ 223 then
      match rest with
      | b1 :: r1 =>
        if isContB b1 then chrSafe ((b - 192) * 64 + (b1 - 128)) :: utf8Replace r1
        else Char.ofNat 0xFFFD :: utf8Replace (b1 :: r1)
      | [] => [Char.ofNat 0xFFFD]
    else if 224 ≤ b && b ≤ 239 then
      match rest with
      | b1 :: r1 =>
        let lo := if b = 224 then 160 else 128
        let hi := if b = 237 then 159 else 191
        if lo ≤ b1 && b1 ≤ hi then
          match r1 with
          | b2 :: r2 =>
            if isContB b2 then
              chrSafe (((b - 224) * 64 + (b1 - 128)) * 64 + (b2 - 128)) :: utf8Replace r2
            else Char.ofNat 0xFFFD :: utf8Replace (b2 :: r2)
          | [] => [Char.ofNat 0xFFFD]
        else Char.ofNat 0xFFFD :: utf8Replace (b1 :: r1)
      | [] => [Char.ofNat 0xFFFD]
    else if 240 ≤ b && b ≤ 244 then
      match rest with
      | b1 :: r1 =>
        let lo := if b = 240 then 144 else 128
        let hi := if b = 244 then 143 else 191
        if lo ≤ b1 && b1 ≤ hi then
          match r1 with
          | b2 :: r2 =>
            if isContB b2 then
              match r2 with
              | b3 :: r3 =>
                if isContB b3 then
                  chrSafe ((((b - 240) * 64 + (b1 - 128)) * 64 + (b2 - 128)) * 64 + (b3 - 128))
                    :: utf8Replace r3
                else Char.ofNat 0xFFFD :: utf8Replace (b3 :: r3)
              | [] => [Char.ofNat 0xFFFD]
            else Char.ofNat 0xFFFD :: utf8Replace (b2 :: r2)
          | [] => [Char.ofNat 0xFFFD]
        else Char.ofNat 0xFFFD :: utf8Replace (b1 :: r1)
      | [] => [Char.ofNat 0xFFFD]
    else Char.ofNat 0xFFFD :: utf8Replace rest
termination_by l => l.length
decreasing_by all_goals (simp [List.length_cons]; try omega)

/-- `unquote(string)` with defaults (`utf-8`, `replace`). -/
def pyUnquote (l : List Char) : List Char :=
  if !l.any (· == '%') then l
  else (groupRuns l).flatMap (fun br => if br.1 then utf8Replace (pctBytes br.2) else br.2)

/-- `.replace('+', ' ')` followed by `unquote`, as in `parse_qsl`. -/
def unquotePlusL (l : List Char) : List Char :=
  pyUnquote (l.map (fun c => if c = '+' then ' ' else c))

/-- `parse_qsl(qs)` with the defaults used via `parse_qs(qs)` in `app.py`:
`keep_blank_values=False`, `strict_parsing=False`, separator `&`. -/
def parseQsl (qs : List Char) : List (String × String) :=
  let query_args := if qs = [] then [] else splitOnChar '&' qs
  query_args.filterMap (fun nv =>
    if nv = [] then none
    else
      match splitOnFirst '=' nv with
      | none => none
      | some (name, value) =>
        if value = [] then none
        else some (String.mk (unquotePlusL name), String.mk (unquotePlusL value)))

/-- The dict built by `parse_qs`: values of a repeated name are appended. -/
def qsInsert (d : List (String × List String)) (k : String) (v : String) :
    List (String × List String) :=
  if d.any (fun p => p.1 == k) then d.map (fun p => if p.1 == k then (p.1, p.2 ++ [v]) else p)
  else d ++ [(k, [v])]

def parseQs (qs : List Char) : List (String × List String) :=
  (parseQsl qs).foldl (fun d p => qsInsert d p.1 p.2) []

def alGet : List (String × List String) → String → Option (List String)
  | [], _ => none
  | p :: ps, k => if p.1 = k then some p.2 else alGet ps k

/-- `parse_qs(query).get('v', [None])[0]`: the stored per-name lists are never
empty, so `[0]` is their head; a missing name gives `[None][0] = None`. -/
def qsGetFirst (qs : List Char) (k : String) : Option String :=
  match alGet (parseQs qs) k with
  | none => none
  | some vs => vs.head?

/-- `str.startswith(p)`. -/
def pyStartsWith (l p : List Char) : Bool := l.take p.length == p

/-! ## `extract_video_id` (src/app.py lines 29–41) -/

def extract_video_id (url : String) : Except UrlErr (Option String) :=
  match pyUrlparse url with
  | .error e => .error e
  | .ok pr =>
    if prHostname pr.netloc = some "youtu.be" then .ok (some (String.mk (pr.path.drop 1)))
    else if prHostname pr.netloc = some "www.youtube.com" ∨ prHostname pr.netloc = some "youtube.com" then
      if pr.path = "/watch".data then .ok (qsGetFirst pr.query "v")
      else if pyStartsWith pr.path "/embed/".data then
        match (splitOnChar '/' pr.path)[2]? with
        | some seg => .ok (some (String.mk seg))
        | none => .error .indexError
      else if pyStartsWith pr.path "/v/".data then
        match (splitOnChar '/' pr.path)[2]? with
        | some seg => .ok (some (String.mk seg))
        | none => .error .indexError
      else .ok none
    else .ok none

/-! ## `get_transcript`, `answer_question` and the request handlers -/

/-- A caption fragment as returned by `YouTubeTranscriptApi.get_transcript`;
only the `text` field is read by `app.py`. -/
structure TranscriptItem where
  text : String
deriving DecidableEq

/-- `get_transcript(video_id, lang_code)` (lines 44–51): `fetch` is the
oracle for the external `YouTubeTranscriptApi.get_transcript` call, whose
`.error` outcome models any exception; the handler logs and returns `None`. -/
def get_transcript (fetch : String → String → Except String (List TranscriptItem))
    (video_id : String) (lang_code : String) : Option String :=
  match fetch video_id lang_code with
  | .ok items => some (String.intercalate " " (items.map TranscriptItem.text))
  | .error _ => none

/-- Python truthiness of `None`-or-string: `None` and `""` are falsy. -/
def pyTruthyStrOpt : Option String → Bool
  | none => false
  | some s => !s.isEmpty

/-- Truthiness of a float literal (used only through `pyTruthyJson`). -/
def numLitTruthy (lit : String) : Bool :=
  if lit = "NaN" || lit = "Infinity" || lit = "-Infinity" then true
  else (lit.data.takeWhile (fun c => c ≠ 'e' ∧ c ≠ 'E')).any (fun c => c.isDigit && c ≠ '0')

/-- Python truthiness of a decoded JSON value (`analyze_transcript` always
returns a dict, so only the `obj` case is ever reached by the handler). -/
def pyTruthyJson : Json → Bool
  | .null => false
  | .bool b => b
  | .str s => !s.isEmpty
  | .num lit => numLitTruthy lit
  | .arr l => !l.isEmpty
  | .obj ps => !ps.isEmpty

inductive FlaskResp where
  | render (template : String) (analysis : Json)
  | text (body : String) (status : Nat)
  | jsonBody (body : Json) (status : Nat)

/-- Lines 140–142: English first, Hindi when the result is falsy. -/
def finalTranscript (fetch : String → String → Except String (List TranscriptItem))
    (video_id : String) : Option String :=
  let transcript := get_transcript fetch video_id "en"
  if !pyTruthyStrOpt transcript then get_transcript fetch video_id "hi" else transcript

/-- Lines 144–149: analyze, then render when the result is truthy. -/
def analysisBranch (llm : Except String String) (transcript : String) : FlaskResp :=
  let analysis := analyze_transcript llm transcript
  if pyTruthyJson analysis then .render "result.html" analysis
  else .text "Error analyzing the transcript using Google Gemini API." 500

/-- The POST branch of `index` (lines 134–151).  An uncaught exception from
`extract_video_id` propagates out of the handler (`Except.error`). -/
def indexPost (fetch : String → String → Except String (List TranscriptItem))
    (llm : Except String String) (video_url : String) : Except UrlErr FlaskResp :=
  match extract_video_id video_url with
  | .error e => .error e
  | .ok vid? =>
    if !pyTruthyStrOpt vid? then .ok (.text "Invalid YouTube URL provided." 400)
    else
      let video_id := vid?.getD ""
      let t? := finalTranscript fetch video_id
      if pyTruthyStrOpt t? then .ok (analysisBranch llm (t?.getD ""))
      else .ok (.text "Unable to extract transcript from the video. It may be unavailable in the specified languages." 500)

/-- `answer_question(question, transcript)` (lines 113–129): the prompt embeds
the question and the transcript; the LLM call outcome is the oracle `llm`. -/
def answer_question (llm : Except String String) (question transcript : String) : String :=
  match llm with
  | .ok t => pyStrip t
  | .error _ => "Sorry, I could not generate an answer at this time."

/-- `ask_question_route` (lines 155–165), after JSON body extraction:
`question`/`transcript` are `data.get(...)` results. -/
def ask_question_route (llm : Except String String) (question transcript : Option String) :
    FlaskResp :=
  if !pyTruthyStrOpt question || !pyTruthyStrOpt transcript then
    .jsonBody (.obj [("error", .str "Missing question or transcript.")]) 400
  else
    .jsonBody (.obj [("answer", .str (answer_question llm (question.getD "") (transcript.getD "")))]) 200

/-! ## Concrete service oracles used in witnesses and counterexamples -/

/-- Transcript service succeeding with one fragment for every language. -/
def fetchAll : String → String → Except String (List TranscriptItem) :=
  fun _ _ => .ok [⟨"hello"⟩]

/-- English succeeds with an empty fragment list, Hindi succeeds. -/
def fetchEnEmptyHiOk : String → String → Except String (List TranscriptItem) :=
  fun _ lang => if lang = "hi" then .ok [⟨"hi there"⟩] else .ok []

/-- English succeeds with an empty fragment list, Hindi fails. -/
def fetchEnEmptyHiErr : String → String → Except String (List TranscriptItem) :=
  fun _ lang => if lang = "hi" then .error "err" else .ok []

/-- English fails, Hindi succeeds. -/
def fetchEnErrHiOk : String → String → Except String (List TranscriptItem) :=
  fun _ lang => if lang = "hi" then .ok [⟨"hi there"⟩] else .error "no captions"

/-! ## List toolkit lemmas -/

theorem findIdxA_some (p : Char → Bool) :
    ∀ (l : List Char) (i : Nat), findIdxA p l = some i →
      ∃ c, l[i]? = some c ∧ p c = true := by
  intro l
  induction l with
  | nil => intro i h; simp [findIdxA] at h
  | cons c cs ih =>
    intro i h
    by_cases hc : p c
    · simp [findIdxA, hc] at h
      exact ⟨c, by simp [← h], hc⟩
    · simp [findIdxA, hc] at h
      obtain ⟨i', hi', rfl⟩ := h
      obtain ⟨d, hd, hp⟩ := ih i' hi'
      exact ⟨d, by simpa using hd, hp⟩

theorem getElem?_some_lt {l : List Char} {i : Nat} {c : Char}
    (h : l[i]? = some c) : i < l.length := by
  by_contra hn
  push_neg at hn
  rw [List.getElem?_eq_none hn] at h
  exact Option.noConfusion h

theorem strFind_char {s : String} {c : Char} {i : Nat}
    (h : strFind s c = some i) : s.data[i]? = some c := by
  obtain ⟨d, hd, hp⟩ := findIdxA_some _ _ _ h
  rwa [show d = c from by simpa using hp] at hd

theorem strRFind_char {s : String} {c : Char} {j : Nat}
    (h : strRFind s c = some j) : s.data[j]? = some c := by
  unfold strRFind at h
  cases hf : findIdxA (· == c) s.data.reverse with
  | none => rw [hf] at h; exact Option.noConfusion h
  | some k =>
    rw [hf] at h
    have hj : s.data.length - 1 - k = j := by simpa using h
    obtain ⟨d, hd, hp⟩ := findIdxA_some _ _ _ hf
    have hk : k < s.data.length := by
      have := getElem?_some_lt hd; simpa using this
    rw [List.getElem?_reverse hk] at hd
    rw [show d = c from by simpa using hp] at hd
    rwa [← hj]

/-- When every `}` of `s` sits before every `{`, the recovery reports missing
boundaries. -/
theorem jsonRecover_noBounds {s : String}
    (H : ∀ j, j < s.data.length → ∀ i, i < j →
      ¬(s.data[i]? = some lbrace ∧ s.data[j]? = some rbrace)) :
    jsonRecover s = .errNoBounds := by
  cases hf : strFind s lbrace with
  | none =>
    cases hr : strRFind s rbrace with
    | none => simp [jsonRecover, hf, hr]
    | some ei => simp [jsonRecover, hf, hr]
  | some si =>
    cases hr : strRFind s rbrace with
    | none => simp [jsonRecover, hf, hr]
    | some ei =>
      have hsi := strFind_char hf
      have hei := strRFind_char hr
      have hlt : ¬ si < ei := fun hlt =>
        H ei (getElem?_some_lt hei) si hlt ⟨hsi, hei⟩
      simp [jsonRecover, hf, hr, hlt]

/-- Splitting a list around the reversed takeWhile/dropWhile of its reverse. -/
theorem rev_split (B : List Char) :
    B = (B.reverse.dropWhile isPyWs).reverse ++ (B.reverse.takeWhile isPyWs).reverse := by
  conv_lhs => rw [← List.reverse_reverse B]
  rw [← List.reverse_append]
  congr 1
  exact (List.takeWhile_append_dropWhile ..).symm

/-- `str.strip` yields a contiguous infix of the original character list. -/
theorem stripList_infix (l : List Char) : ∃ L R, l = L ++ stripList l ++ R := by
  refine ⟨l.takeWhile isPyWs, ((l.dropWhile isPyWs).reverse.takeWhile isPyWs).reverse, ?_⟩
  show l = l.takeWhile isPyWs ++ ((l.dropWhile isPyWs).reverse.dropWhile isPyWs).reverse ++ _
  rw [List.append_assoc, ← rev_split (l.dropWhile isPyWs)]
  exact (List.takeWhile_append_dropWhile ..).symm

/-- Claim C2: for the raw LLM text
`Here is the result: {"summary":"ok"} trailing junk`, the JSON recovery in
`analyze_transcript` extracts the substring from the first `{` to the last
`}`, strict-parses it successfully on the first attempt, and the handler
receives the parsed object `{"summary": "ok"}` (for any transcript). -/
theorem claim_C2 :
    jsonLoads "\x7b\"summary\":\"ok\"\x7d" = .ok (Json.obj [("summary", Json.str "ok")]) ∧
    jsonRecover "Here is the result: \x7b\"summary\":\"ok\"\x7d trailing junk" =
      .ok (Json.obj [("summary", Json.str "ok")]) ∧
    ∀ t : String,
      analyze_transcript (Except.ok "Here is the result: \x7b\"summary\":\"ok\"\x7d trailing junk") t =
        Json.obj [("summary", Json.str "ok")] :=
  ⟨rfl, rfl, fun _ => rfl⟩

/-- Claim C3: whenever the raw LLM text has no `{`, or no `}`, or its first
`{` only occurs after its last `}` (equivalently: no `{` strictly precedes
any `}`), `analyze_transcript` attempts no parse and returns the dict whose
`error` field reports that the response did not contain valid JSON. -/
theorem claim_C3 (t : String)
    (H : ∀ j, j < t.data.length → ∀ i, i < j →
      ¬(t.data[i]? = some lbrace ∧ t.data[j]? = some rbrace)) (tr : String) :
    analyze_transcript (.ok t) tr =
      Json.obj [("error", Json.str "The model's response did not contain valid JSON.")] := by
  obtain ⟨L, R, hLR⟩ := stripList_infix t.data
  have Hs : ∀ j, j < (pyStrip t).data.length → ∀ i, i < j →
      ¬((pyStrip t).data[i]? = some lbrace ∧ (pyStrip t).data[j]? = some rbrace) := by
    intro j hj i hij hpair
    obtain ⟨hi, hjb⟩ := hpair
    have hdata : (pyStrip t).data = stripList t.data := rfl
    rw [hdata] at hi hjb hj
    have hiS : i < (stripList t.data).length := getElem?_some_lt hi
    have hi' : t.data[L.length + i]? = some lbrace := by
      rw [hLR, List.append_assoc, List.getElem?_append_right (by omega),
        Nat.add_sub_cancel_left, List.getElem?_append, if_pos hiS]
      exact hi
    have hj' : t.data[L.length + j]? = some rbrace := by
      rw [hLR, List.append_assoc, List.getElem?_append_right (by omega),
        Nat.add_sub_cancel_left, List.getElem?_append, if_pos hj]
      exact hjb
    exact H (L.length + j) (getElem?_some_lt hj') (L.length + i) (by omega) ⟨hi', hj'⟩
  show analysisOf (jsonRecover (pyStrip t)) = _
  rw [jsonRecover_noBounds Hs]
  rfl

/-- Witness for C3 at the concrete brace-free input `no json here`. -/
theorem claim_C3_witness :
    analyze_transcript (.ok "no json here") "t" =
      Json.obj [("error", Json.str "The model's response did not contain valid JSON.")] :=
  claim_C3 "no json here" (by decide) "t"

/-- If no prefix of the candidate (`= l.reverse`) parses, the trimming loop
exhausts and returns `errExhausted` carrying the error it was given. -/
theorem trimRev_exhausted (l : List Char) (e : JsonError)
    (H : ∀ m, m ≤ l.length → ¬∃ v, jsonLoads (String.mk (l.reverse.take m)) = .ok v) :
    trimLoopRev e l = .errExhausted e := by
  induction l with
  | nil => rfl
  | cons c rest ih =>
    have hfull : ¬∃ v, jsonLoads (String.mk ((c :: rest).reverse)) = .ok v := by
      have := H (c :: rest).length (Nat.le_refl _)
      rwa [show (c :: rest).reverse.take (c :: rest).length = (c :: rest).reverse by
        rw [← List.length_reverse]; exact List.take_length _] at this
    unfold trimLoopRev
    cases h : jsonLoads (String.mk ((c :: rest).reverse)) with
    | ok a => exact absurd ⟨a, h⟩ hfull
    | error _ =>
      exact ih fun m hm => by
        have := H m (Nat.le_trans hm (Nat.le_succ _))
        rwa [show (c :: rest).reverse.take m = rest.reverse.take m by
          rw [List.reverse_cons]
          exact List.take_append_of_le_length (by simpa using hm)] at this

/-- If some prefix of the candidate parses and `N` is the longest such
prefix length, the trimming loop returns exactly its parse result. -/
theorem trimRev_ok (l : List Char) (e : JsonError) (N : Nat) (v : Json)
    (hN : N ≤ l.length)
    (hok : jsonLoads (String.mk (l.reverse.take N)) = .ok v)
    (hmax : ∀ m, m ≤ l.length → N < m → ¬∃ w, jsonLoads (String.mk (l.reverse.take m)) = .ok w) :
    trimLoopRev e l = .ok v := by
  induction l with
  | nil =>
    have hN0 : N = 0 := Nat.le_zero.mp hN
    subst hN0
    rw [show jsonLoads (String.mk (([] : List Char).reverse.take 0)) =
      .error ⟨"Expecting value", String.mk [], 0⟩ from rfl] at hok
    exact Except.noConfusion hok
  | cons c rest ih =>
    have hfull : (c :: rest).reverse.take (c :: rest).length = (c :: rest).reverse := by
      rw [← List.length_reverse]; exact List.take_length _
    unfold trimLoopRev
    cases h : jsonLoads (String.mk ((c :: rest).reverse)) with
    | ok w =>
      rcases Nat.lt_or_ge N (c :: rest).length with hlt | hge
      · exact absurd ⟨w, by rwa [hfull]⟩ (hmax (c :: rest).length (Nat.le_refl _) hlt)
      · have hNe : N = (c :: rest).length := Nat.le_antisymm hN hge
        rw [hNe, hfull, h] at hok
        exact congrArg RResult.ok (Except.ok.inj hok)
    | error _ =>
      have hNlt : N ≤ rest.length := by
        rcases Nat.lt_or_ge N (c :: rest).length with hlt | hge
        · simpa using Nat.lt_succ_iff.mp (by simpa using hlt)
        · have hNe : N = (c :: rest).length := Nat.le_antisymm hN hge
          rw [hNe, hfull, h] at hok
          exact Except.noConfusion hok
      have htk : ∀ m, m ≤ rest.length →
          (c :: rest).reverse.take m = rest.reverse.take m := fun m hm => by
        rw [List.reverse_cons]
        exact List.take_append_of_le_length (by simpa using hm)
      refine ih hNlt ?_ ?_
      · rwa [htk N hNlt] at hok
      · intro m hm hNm
        have := hmax m (Nat.le_trans hm (Nat.le_succ _)) hNm
        rwa [htk m hm] at this

/-- Claim C1 (amended): when boundaries are found and the candidate
`raw[start:end+1]` fails strict parse with error `e`, the recovery trims the
final character repeatedly and returns the parse of the longest prefix that
parses; if no prefix parses it returns `errExhausted` carrying `e` — the
decode error of the *initial* full-candidate parse (not of the last trim
attempt) — and, being a total function, it never raises. -/
theorem claim_C1_amended (raw : String) (si ei : Nat) (e : JsonError)
    (hf : strFind raw lbrace = some si) (hr : strRFind raw rbrace = some ei)
    (hlt : si < ei)
    (he : jsonLoads (pySlice raw si (ei + 1)) = .error e) :
    ((∀ m, m ≤ (pySlice raw si (ei + 1)).data.length →
        ¬∃ v, jsonLoads (strTake m (pySlice raw si (ei + 1))) = .ok v) →
      jsonRecover raw = .errExhausted e) ∧
    (∀ N v, N ≤ (pySlice raw si (ei + 1)).data.length →
        jsonLoads (strTake N (pySlice raw si (ei + 1))) = .ok v →
        (∀ m, m ≤ (pySlice raw si (ei + 1)).data.length → N < m →
          ¬∃ w, jsonLoads (strTake m (pySlice raw si (ei + 1))) = .ok w) →
      jsonRecover raw = .ok v) := by
  have hred : jsonRecover raw = trimLoop e (pySlice raw si (ei + 1)) := by
    simp [jsonRecover, hf, hr, hlt, he]
  have hrev : ∀ m : Nat,
      String.mk ((pySlice raw si (ei + 1)).data.reverse.reverse.take m) =
        strTake m (pySlice raw si (ei + 1)) := by
    intro m; rw [List.reverse_reverse]; rfl
  have hlen : (pySlice raw si (ei + 1)).data.reverse.length =
      (pySlice raw si (ei + 1)).data.length := List.length_reverse _
  constructor
  · intro H
    rw [hred]
    exact trimRev_exhausted _ e fun m hm => by
      rw [hrev m]; exact H m (by rwa [hlen] at hm)
  · intro N v hN hok hmax
    rw [hred]
    refine trimRev_ok _ e N v (by rwa [hlen]) ?_ ?_
    · rw [hrev N]; exact hok
    · intro m hm hNm
      rw [hrev m]; exact hmax m (by rwa [hlen] at hm) hNm

/-- Counterexample to C1 as stated: for raw text `{"a":}` every prefix of the
candidate fails to parse, and the returned error is the one from the initial
full-candidate parse (`Expecting value` at char 5), which differs from the
decode error of the last trim attempt (parsing `{`, which fails with
`Expecting property name enclosed in double quotes` at char 1). -/
theorem claim_C1_counterexample :
    jsonRecover "\x7b\"a\":\x7d" =
      .errExhausted ⟨"Expecting value", "\x7b\"a\":\x7d", 5⟩ ∧
    jsonLoads "\x7b" =
      .error ⟨"Expecting property name enclosed in double quotes", "\x7b", 1⟩ ∧
    (⟨"Expecting value", "\x7b\"a\":\x7d", 5⟩ : JsonError) ≠
      ⟨"Expecting property name enclosed in double quotes", "\x7b", 1⟩ :=
  ⟨rfl, rfl, by decide⟩

/-- Witness for C1 (amended) at `{"a":1}}`: the candidate fails with
`Extra data`, and the longest parsing prefix (length 7, `{"a":1}`) is
returned by the trimming loop. -/
theorem claim_C1_witness :
    jsonRecover "\x7b\"a\":1\x7d\x7d" = .ok (Json.obj [("a", Json.num "1")]) := by
  refine (claim_C1_amended "\x7b\"a\":1\x7d\x7d" 0 7
    ⟨"Extra data", "\x7b\"a\":1\x7d\x7d", 7⟩ (by decide) (by decide) (by decide) rfl).2
    7 (Json.obj [("a", Json.num "1")]) (by decide) rfl ?_
  intro m hm hlt
  have hm8 : m = 8 := by
    have : (pySlice "\x7b\"a\":1\x7d\x7d" 0 (7 + 1)).data.length = 8 := by decide
    omega
  subst hm8
  rintro ⟨w, hw⟩
  rw [show jsonLoads (strTake 8 (pySlice "\x7b\"a\":1\x7d\x7d" 0 (7 + 1))) =
    .error ⟨"Extra data", "\x7b\"a\":1\x7d\x7d", 7⟩ from rfl] at hw
  exact Except.noConfusion hw

/-- A successful `scan_once` at a `{` always produces an object. -/
theorem scanOnce_lbrace_obj {doc : List Char} {f idx e2 : Nat} {v : Json}
    (hc : doc[idx]? = some lbrace) (h : scanOnce doc f idx = .ok (v, e2)) :
    ∃ ps, v = Json.obj ps := by
  cases f with
  | zero =>
    rw [show scanOnce doc 0 idx = Except.error ScanErr.fuel from rfl] at h
    exact Except.noConfusion h
  | succ f' =>
    simp only [scanOnce] at h
    rw [hc] at h
    simp only [if_neg (by decide : ¬ (lbrace = '"')), if_pos rfl] at h
    cases hso : scanObject (fun i => scanOnce doc f' i) doc (idx + 1) with
    | ok pr =>
      obtain ⟨ps, e⟩ := pr
      rw [hso] at h
      exact ⟨ps, ((Prod.mk.injEq ..).mp (Except.ok.inj h)).1.symm⟩
    | error e' =>
      rw [hso] at h
      exact Except.noConfusion h

/-- A successful `json.loads` of a string starting with `{` is an object. -/
theorem jsonLoads_lbrace_obj {s : String} {v : Json}
    (hc : s.data.head? = some lbrace) (h : jsonLoads s = .ok v) :
    ∃ ps, v = Json.obj ps := by
  have hc0 : s.data[0]? = some lbrace := by rwa [← List.head?_eq_getElem?]
  have h0 : skipWs s.data 0 = 0 := by
    cases hd : s.data with
    | nil => rw [hd] at hc; exact Option.noConfusion hc
    | cons c cs =>
      rw [hd] at hc
      have hcl : c = lbrace := by simpa using hc
      subst hcl
      simp only [skipWs, List.drop_zero, countWs]
      rw [if_neg (by decide)]
  simp only [jsonLoads] at h
  rw [h0] at h
  cases hsc : scanOnce s.data (s.data.length + 2) 0 with
  | error e =>
    rw [hsc] at h
    cases e <;> exact Except.noConfusion h
  | ok pr =>
    obtain ⟨w, e⟩ := pr
    rw [hsc] at h
    by_cases hend : skipWs s.data e = s.data.length
    · simp only [if_pos hend] at h
      obtain ⟨ps, hps⟩ := scanOnce_lbrace_obj hc0 hsc
      exact ⟨ps, (Except.ok.inj h) ▸ hps⟩
    · simp only [if_neg hend] at h
      exact Except.noConfusion h

/-- A trimming-loop success parses some nonempty prefix of the candidate. -/
theorem trimRev_ok_inv : ∀ (l : List Char) (e : JsonError) (v : Json),
    trimLoopRev e l = .ok v →
    ∃ m, 1 ≤ m ∧ m ≤ l.length ∧ jsonLoads (String.mk (l.reverse.take m)) = .ok v := by
  intro l
  induction l with
  | nil => intro e v h; exact RResult.noConfusion h
  | cons c rest ih =>
    intro e v h
    unfold trimLoopRev at h
    cases hj : jsonLoads (String.mk ((c :: rest).reverse)) with
    | ok a =>
      rw [hj] at h
      refine ⟨(c :: rest).length, by simp, Nat.le_refl _, ?_⟩
      rw [show (c :: rest).reverse.take (c :: rest).length = (c :: rest).reverse by
        rw [← List.length_reverse]; exact List.take_length _]
      rw [hj]
      exact congrArg Except.ok (RResult.ok.inj h)
    | error e' =>
      rw [hj] at h
      obtain ⟨m, h1, h2, h3⟩ := ih e v h
      refine ⟨m, h1, Nat.le_trans h2 (Nat.le_succ _), ?_⟩
      rwa [show (c :: rest).reverse.take m = rest.reverse.take m by
        rw [List.reverse_cons]
        exact List.take_append_of_le_length (by simpa using h2)]

/-- Whenever the recovery succeeds, the parsed string is a nonempty prefix of
the candidate, which starts at the first `{`; hence the value is an object. -/
theorem jsonRecover_ok_obj {raw : String} {v : Json}
    (h : jsonRecover raw = .ok v) : ∃ ps, v = Json.obj ps := by
  cases hf : strFind raw lbrace with
  | none => rw [jsonRecover, hf] at h; exact RResult.noConfusion h
  | some si =>
    cases hr : strRFind raw rbrace with
    | none => rw [jsonRecover, hf, hr] at h; exact RResult.noConfusion h
    | some ei =>
      by_cases hlt : si < ei
      · have hchar := strFind_char hf
        have hhead : (pySlice raw si (ei + 1)).data.head? = some lbrace := by
          show ((raw.data.drop si).take (ei + 1 - si)).head? = some lbrace
          rw [List.head?_eq_getElem?, List.getElem?_take, if_pos (by omega),
            List.getElem?_drop, Nat.add_zero]
          exact hchar
        cases hj : jsonLoads (pySlice raw si (ei + 1)) with
        | ok a =>
          have hred : jsonRecover raw = .ok a := by
            simp [jsonRecover, hf, hr, hlt, hj]
          rw [hred] at h
          exact (RResult.ok.inj h) ▸ jsonLoads_lbrace_obj hhead hj
        | error e =>
          have hred : jsonRecover raw = trimLoop e (pySlice raw si (ei + 1)) := by
            simp [jsonRecover, hf, hr, hlt, hj]
          rw [hred] at h
          obtain ⟨m, hm1, hm2, hm3⟩ := trimRev_ok_inv _ e v h
          rw [List.reverse_reverse] at hm3
          have hheadm : (String.mk ((pySlice raw si (ei + 1)).data.take m)).data.head? =
              some lbrace := by
            show ((pySlice raw si (ei + 1)).data.take m).head? = some lbrace
            rw [List.head?_eq_getElem?, List.getElem?_take, if_pos (by omega),
              ← List.head?_eq_getElem?]
            exact hhead
          exact jsonLoads_lbrace_obj hheadm hm3
      · have hred : jsonRecover raw = .errNoBounds := by
          simp [jsonRecover, hf, hr, hlt]
        rw [hred] at h
        exact RResult.noConfusion h

/-- Claim C10: whenever the JSON recovery of `analyze_transcript` succeeds
(first parse or after trimming), the returned value is a JSON object — never
a list, string, number, boolean or null — because every parsed candidate
starts at the first `{` and trimming only removes final characters. -/
theorem claim_C10 (raw : String) (v : Json) (h : jsonRecover raw = .ok v) :
    ∃ ps, v = Json.obj ps :=
  jsonRecover_ok_obj h

/-- Witness for C10 at the concrete input `{}`. -/
theorem claim_C10_witness :
    jsonRecover "\x7b\x7d" = .ok (Json.obj []) ∧
    ∃ ps, (Json.obj [] : Json) = Json.obj ps :=
  ⟨rfl, claim_C10 "\x7b\x7d" (Json.obj []) rfl⟩

/-- A nonempty string is truthy. -/
theorem pyTruthy_some {s : String} (h : ¬ s = "") : pyTruthyStrOpt (some s) = true := by
  have he : s.isEmpty = false := by
    cases he2 : s.isEmpty
    · rfl
    · exact absurd ((String.isEmpty_iff s).mp he2) h
  simp [pyTruthyStrOpt, he]

/-- Claim C7: `get_transcript` joins the fragment texts of a successful
service call with single spaces in the given order, and returns `None` on any
service failure instead of raising. -/
theorem claim_C7 (fetch : String → String → Except String (List TranscriptItem))
    (video_id lang_code : String) :
    (∀ items, fetch video_id lang_code = .ok items →
      get_transcript fetch video_id lang_code =
        some (String.intercalate " " (items.map TranscriptItem.text))) ∧
    (∀ e, fetch video_id lang_code = .error e →
      get_transcript fetch video_id lang_code = none) := by
  constructor
  · intro items hx
    simp [get_transcript, hx]
  · intro e hx
    simp [get_transcript, hx]

/-- Witness for C7: a one-fragment success joins to that fragment's text, and
an erroring fetch yields `None`. -/
theorem claim_C7_witness :
    get_transcript fetchAll "x" "en" = some "hello" ∧
    get_transcript fetchEnErrHiOk "x" "en" = none :=
  ⟨(claim_C7 fetchAll "x" "en").1 [⟨"hello"⟩] rfl,
   (claim_C7 fetchEnErrHiOk "x" "en").2 "no captions" rfl⟩

/-- Claim C9: with truthy question and transcript, the ask handler always
returns the 200 answer payload; `answer_question` returns the trimmed LLM
text on success and exactly the fixed fallback string on any LLM failure. -/
theorem claim_C9 (llm : Except String String) (q t : String)
    (hq : pyTruthyStrOpt (some q) = true) (ht : pyTruthyStrOpt (some t) = true) :
    ask_question_route llm (some q) (some t) =
      .jsonBody (Json.obj [("answer", Json.str (answer_question llm q t))]) 200 ∧
    (∀ e, llm = .error e →
      answer_question llm q t = "Sorry, I could not generate an answer at this time.") ∧
    (∀ s, llm = .ok s → answer_question llm q t = pyStrip s) := by
  refine ⟨?_, ?_, ?_⟩
  · simp [ask_question_route, hq, ht]
  · intro e he; subst he; rfl
  · intro s hs; subst hs; rfl

/-- Witness for C9: failing LLM with valid inputs still yields the 200
payload carrying the fixed fallback string. -/
theorem claim_C9_witness :
    ask_question_route (.error "boom") (some "q") (some "t") =
      .jsonBody (Json.obj [("answer",
        Json.str "Sorry, I could not generate an answer at this time.")]) 200 :=
  (claim_C9 (.error "boom") "q" "t" (by decide) (by decide)).1

/-- `analyze_transcript` always returns a dict (a JSON object). -/
theorem analyze_transcript_obj (llm : Except String String) (tr : String) :
    ∃ ps, analyze_transcript llm tr = Json.obj ps := by
  cases llm with
  | error e => exact ⟨[("error", .str e)], rfl⟩
  | ok text =>
    show ∃ ps, analysisOf (jsonRecover (pyStrip text)) = Json.obj ps
    cases hr : jsonRecover (pyStrip text) with
    | ok a =>
      obtain ⟨ps, hps⟩ := jsonRecover_ok_obj hr
      exact ⟨ps, by simp [analysisOf, hps]⟩
    | errNoBounds => exact ⟨_, rfl⟩
    | errExhausted e => exact ⟨_, rfl⟩

/-- Claim C4 (amended): when the analyze handler reaches the analysis step,
`analyze_transcript` returns a mapping; the handler renders the result view
for every *nonempty* mapping (including `{error: message}` records), but the
500 `Error analyzing the transcript` branch *is* taken when the recovered
object is the empty mapping (Python falsiness of `{}`). -/
theorem claim_C4_amended (fetch : String → String → Except String (List TranscriptItem))
    (llm : Except String String) (url vid tr : String)
    (hv : extract_video_id url = .ok (some vid)) (hvne : vid ≠ "")
    (ht : finalTranscript fetch vid = some tr) (htne : tr ≠ "") :
    ∃ ps, analyze_transcript llm tr = Json.obj ps ∧
      (ps ≠ [] →
        indexPost fetch llm url = .ok (.render "result.html" (Json.obj ps))) ∧
      (ps = [] →
        indexPost fetch llm url =
          .ok (.text "Error analyzing the transcript using Google Gemini API." 500)) := by
  obtain ⟨ps, hps⟩ := analyze_transcript_obj llm tr
  have hred : indexPost fetch llm url = .ok (analysisBranch llm tr) := by
    simp [indexPost, hv, pyTruthy_some hvne, ht, pyTruthy_some htne]
  refine ⟨ps, hps, ?_, ?_⟩
  · intro hne
    rw [hred]
    cases ps with
    | nil => exact absurd rfl hne
    | cons p l => simp [analysisBranch, hps, pyTruthyJson]
  · intro hnil
    subst hnil
    rw [hred]
    simp [analysisBranch, hps, pyTruthyJson]

/-- Counterexample to C4 as stated: the LLM text `{}` is recovered as the
empty mapping — a value `analyze_transcript` returns per its contract — yet
the handler takes the 500 `Error analyzing the transcript` branch. -/
theorem claim_C4_counterexample :
    analyze_transcript (.ok "\x7b\x7d") "hello" = Json.obj [] ∧
    indexPost fetchAll (.ok "\x7b\x7d") "https://youtu.be/abc" =
      .ok (.text "Error analyzing the transcript using Google Gemini API." 500) :=
  ⟨rfl, rfl⟩

/-- Witness for C4 (amended): a nonempty recovered object is rendered. -/
theorem claim_C4_witness :
    indexPost fetchAll (.ok "\x7b\"summary\": \"ok\"\x7d") "https://youtu.be/abc" =
      .ok (.render "result.html" (Json.obj [("summary", Json.str "ok")])) := by
  obtain ⟨ps, hps, hne, _⟩ := claim_C4_amended fetchAll (.ok "\x7b\"summary\": \"ok\"\x7d")
    "https://youtu.be/abc" "abc" "hello" rfl (by decide) rfl (by decide)
  have hpl : ps = [("summary", Json.str "ok")] := by
    have h2 : analyze_transcript (.ok "\x7b\"summary\": \"ok\"\x7d") "hello" =
        Json.obj [("summary", Json.str "ok")] := rfl
    rw [hps] at h2
    exact Json.obj.inj h2
  subst hpl
  exact hne (List.cons_ne_nil _ _)

/-- Claim C8 (amended): the analyze handler fetches English first and
consults the Hindi fetch exactly when the English result is falsy — absent
*or the empty string*; when English is truthy the outcome is determined by
the English fetch alone, and when English is absent and Hindi yields a
nonempty transcript the handler proceeds to analysis on the Hindi transcript
without surfacing the English failure. -/
theorem claim_C8_amended (fetch fetch' : String → String → Except String (List TranscriptItem))
    (llm : Except String String) (url vid : String)
    (hv : extract_video_id url = .ok (some vid)) (hvne : vid ≠ "") :
    (pyTruthyStrOpt (get_transcript fetch vid "en") = true →
      finalTranscript fetch vid = get_transcript fetch vid "en" ∧
      (fetch' vid "en" = fetch vid "en" →
        finalTranscript fetch' vid = get_transcript fetch vid "en")) ∧
    (pyTruthyStrOpt (get_transcript fetch vid "en") = false →
      finalTranscript fetch vid = get_transcript fetch vid "hi") ∧
    (∀ s, get_transcript fetch vid "en" = none →
      get_transcript fetch vid "hi" = some s → s ≠ "" →
      indexPost fetch llm url = .ok (analysisBranch llm s)) := by
  refine ⟨?_, ?_, ?_⟩
  · intro htru
    constructor
    · simp [finalTranscript, htru]
    · intro hagree
      have heq2 : get_transcript fetch' vid "en" = get_transcript fetch vid "en" := by
        unfold get_transcript
        rw [hagree]
      simp [finalTranscript, heq2, htru]
  · intro hfal
    simp [finalTranscript, hfal]
  · intro s hen hhi hsne
    have hfin : finalTranscript fetch vid = some s := by
      simp [finalTranscript, hen, hhi, pyTruthyStrOpt]
    simp [indexPost, hv, pyTruthy_some hvne, hfin, pyTruthy_some hsne]

/-- Counterexample to C8 as stated: the English fetch returns an *empty
fragment list*, so `get_transcript` yields the present-but-empty transcript
`""` (not absent) — yet the handler still consults the Hindi fetch: with
identical English outcomes, a succeeding Hindi fetch renders an analysis
while a failing one yields the 500 transcript error. -/
theorem claim_C8_counterexample :
    get_transcript fetchEnEmptyHiOk "abc" "en" = some "" ∧
    fetchEnEmptyHiOk "abc" "en" = fetchEnEmptyHiErr "abc" "en" ∧
    indexPost fetchEnEmptyHiOk (.ok "\x7b\"summary\": \"ok\"\x7d") "https://youtu.be/abc" =
      .ok (.render "result.html" (Json.obj [("summary", Json.str "ok")])) ∧
    indexPost fetchEnEmptyHiErr (.ok "\x7b\"summary\": \"ok\"\x7d") "https://youtu.be/abc" =
      .ok (.text "Unable to extract transcript from the video. It may be unavailable in the specified languages." 500) :=
  ⟨rfl, rfl, rfl, rfl⟩

/-- Witness for C8 (amended): English absent, Hindi nonempty — the handler
analyzes the Hindi transcript. -/
theorem claim_C8_witness :
    indexPost fetchEnErrHiOk (.ok "\x7b\x7d") "https://youtu.be/abc" =
      .ok (analysisBranch (.ok "\x7b\x7d") "hi there") :=
  (claim_C8_amended fetchEnErrHiOk fetchEnErrHiOk (.ok "\x7b\x7d") "https://youtu.be/abc"
    "abc" rfl (by decide)).2.2 "hi there" rfl rfl (by decide)

/-- `str.split(sep)` produces one more part than there are separators. -/
theorem splitOnChar_length (sep : Char) :
    ∀ l : List Char, (splitOnChar sep l).length = l.countP (fun c => c == sep) + 1 := by
  intro l
  induction l with
  | nil => rfl
  | cons c cs ih =>
    cases hsc : splitOnChar sep cs with
    | nil => rw [hsc] at ih; simp at ih
    | cons h t =>
      rw [hsc] at ih
      by_cases hc : c = sep
      · simp only [splitOnChar, hsc, if_pos hc, List.countP_cons]
        simp only [List.length_cons] at ih ⊢
        simp [hc]
        omega
      · simp only [splitOnChar, hsc, if_neg hc, List.countP_cons]
        simp only [List.length_cons] at ih ⊢
        simp [hc]
        omega

/-- A path starting with a two-`/` literal splits into at least three parts,
so `path.split('/')[2]` cannot raise `IndexError`. -/
theorem splitIdx2_of_pre {path pre : List Char}
    (hpre : pyStartsWith path pre = true)
    (hcount : pre.countP (fun c => c == '/') = 2) :
    ∃ seg, (splitOnChar '/' path)[2]? = some seg := by
  have htake : path.take pre.length = pre := by simpa [pyStartsWith] using hpre
  have hdecomp : path = pre ++ path.drop pre.length := by
    conv_lhs => rw [← List.take_append_drop pre.length path]
    rw [htake]
  have hcnt : 2 ≤ path.countP (fun c => c == '/') := by
    rw [hdecomp, List.countP_append, hcount]
    omega
  have hlen : 2 < (splitOnChar '/' path).length := by
    rw [splitOnChar_length]
    omega
  exact ⟨_, List.getElem?_eq_getElem hlen⟩

/-- Claim C6 (amended): for every URL whose authority contains no square
bracket and is ASCII, `extract_video_id` returns a value (an identifier or
`None`) without raising — unparsable URLs yield `None`; but a URL whose
authority has `[` without `]` (or vice versa) makes it raise
`ValueError("Invalid IPv6 URL")` instead of returning. -/
theorem claim_C6_amended (url : String)
    (hb1 : (urlNetloc url).any (· == '[') = false)
    (hb2 : (urlNetloc url).any (· == ']') = false)
    (ha : (urlNetloc url).all (fun c => c.toNat < 128) = true) :
    (∃ r, extract_video_id url = .ok r) ∧
    (∀ url' : String, netlocBad (urlNetloc url') = true →
      extract_video_id url' = .error .invalidIPv6) := by
  constructor
  · have hbad : netlocBad (urlNetloc url) = false := by
      simp [netlocBad, hb1, hb2]
    obtain ⟨r, hsplit⟩ : ∃ r, pyUrlsplit url = .ok r := by
      simp [pyUrlsplit, hbad, hb1, ha]
    obtain ⟨pr, hparse⟩ : ∃ pr, pyUrlparse url = .ok pr := by
      simp only [pyUrlparse, hsplit]
      by_cases hp : usesParams.contains r.scheme ∧ r.path.any (· == ';')
      · rw [if_pos hp]; exact ⟨_, rfl⟩
      · rw [if_neg hp]; exact ⟨_, rfl⟩
    by_cases h1 : prHostname pr.netloc = some "youtu.be"
    · simp [extract_video_id, hparse, h1]
    by_cases h2 : prHostname pr.netloc = some "www.youtube.com" ∨
        prHostname pr.netloc = some "youtube.com"
    · by_cases h3 : pr.path = "/watch".data
      · simp [extract_video_id, hparse, h1, h2, h3]
      by_cases h4 : pyStartsWith pr.path "/embed/".data = true
      · obtain ⟨seg, hseg⟩ := splitIdx2_of_pre h4 (by decide)
        simp [extract_video_id, hparse, h1, h2, h3, h4, hseg]
      by_cases h5 : pyStartsWith pr.path "/v/".data = true
      · obtain ⟨seg, hseg⟩ := splitIdx2_of_pre h5 (by decide)
        simp [extract_video_id, hparse, h1, h2, h3, h4, h5, hseg]
      · simp [extract_video_id, hparse, h1, h2, h3, h4, h5]
    · simp [extract_video_id, hparse, h1, h2]
  · intro url' hbad
    simp [extract_video_id, pyUrlparse, pyUrlsplit, hbad]

/-- Counterexample to C6 as stated: on the malformed URL `http://[` the code
does not return absent — `urlparse` raises an uncaught
`ValueError("Invalid IPv6 URL")`, which propagates out of
`extract_video_id`. -/
theorem claim_C6_counterexample :
    extract_video_id "http://[" = .error .invalidIPv6 := rfl

/-- Witness for C6 (amended) at a bracket-free URL. -/
theorem claim_C6_witness :
    ∃ r, extract_video_id "https://youtu.be/abc" = .ok r :=
  (claim_C6_amended "https://youtu.be/abc" (by decide) (by decide) (by decide)).1

/-- A hit in the front part of an append is the overall first hit. -/
theorem findIdxA_append_some {p : Char → Bool} :
    ∀ {A : List Char} (B : List Char) {i : Nat},
      findIdxA p A = some i → findIdxA p (A ++ B) = some i := by
  intro A
  induction A with
  | nil => intro B i h; exact Option.noConfusion h
  | cons c cs ih =>
    intro B i h
    by_cases hc : p c
    · simp [findIdxA, hc] at h ⊢; exact h
    · simp only [findIdxA, if_neg hc, List.cons_append] at h ⊢
      cases hcs : findIdxA p cs with
      | none => rw [hcs] at h; exact Option.noConfusion h
      | some j =>
        rw [hcs] at h
        rw [show cs.append B = cs ++ B from rfl, ih B hcs]
        exact h

theorem headD_append {A B : List Char} {d : Char} (h : A ≠ []) :
    (A ++ B).headD d = A.headD d := by
  cases A with
  | nil => exact absurd rfl h
  | cons c cs => rfl

/-- `takeWhile` passes through a front part all of whose elements satisfy `p`. -/
theorem tw_append_of_all {p : Char → Bool} :
    ∀ {A : List Char} (B : List Char), A.all p = true →
      (A ++ B).takeWhile p = A ++ B.takeWhile p := by
  intro A
  induction A with
  | nil => intro B _; rfl
  | cons c cs ih =>
    intro B hall
    simp only [List.all_cons, Bool.and_eq_true] at hall
    simp [List.takeWhile_cons, hall.1, ih B hall.2]

theorem dw_append_of_all {p : Char → Bool} :
    ∀ {A : List Char} (B : List Char), A.all p = true →
      (A ++ B).dropWhile p = B.dropWhile p := by
  intro A
  induction A with
  | nil => intro B _; rfl
  | cons c cs ih =>
    intro B hall
    simp only [List.all_cons, Bool.and_eq_true] at hall
    simp [List.dropWhile_cons, hall.1, ih B hall.2]

/-- `takeWhile` stops inside a front part that contains a failing element. -/
theorem tw_append_of_break {p : Char → Bool} :
    ∀ {A : List Char} (B : List Char), A.all p = false →
      (A ++ B).takeWhile p = A.takeWhile p := by
  intro A
  induction A with
  | nil => intro B h; exact Bool.noConfusion h
  | cons c cs ih =>
    intro B hall
    by_cases hc : p c
    · simp only [List.all_cons, hc, Bool.true_and] at hall
      simp [List.takeWhile_cons, hc, ih B hall]
    · simp [List.takeWhile_cons, hc]

theorem dw_append_of_break {p : Char → Bool} :
    ∀ {A : List Char} (B : List Char), A.all p = false →
      (A ++ B).dropWhile p = A.dropWhile p ++ B := by
  intro A
  induction A with
  | nil => intro B h; exact Bool.noConfusion h
  | cons c cs ih =>
    intro B hall
    by_cases hc : p c
    · simp only [List.all_cons, hc, Bool.true_and] at hall
      simp [List.dropWhile_cons, hc, ih B hall]
    · simp [List.dropWhile_cons, hc]

/-- Splitting at the first separator when the front part has none. -/
theorem splitOnChar_append_nosep {sep : Char} :
    ∀ {A : List Char} (B : List Char), A.all (fun c => !(c == sep)) = true →
      splitOnChar sep (A ++ sep :: B) = A :: splitOnChar sep B := by
  intro A
  induction A with
  | nil =>
    intro B _
    have hne : splitOnChar sep B ≠ [] := by
      intro hh
      have hlen := splitOnChar_length sep B
      rw [hh] at hlen
      simp at hlen
    cases hsb : splitOnChar sep B with
    | nil => exact absurd hsb hne
    | cons h t => simp [splitOnChar, hsb]
  | cons c cs ih =>
    intro B hall
    have hc : (c == sep) = false := by
      cases h2 : (c == sep)
      · rfl
      · have h3 := List.all_eq_true.mp hall c (List.mem_cons_self ..)
        rw [h2] at h3
        exact Bool.noConfusion h3
    have hcs : cs.all (fun c => !(c == sep)) = true := by
      rw [List.all_eq_true]
      intro a ha
      exact List.all_eq_true.mp hall a (List.mem_cons_of_mem _ ha)
    have hcne : ¬ (c = sep) := by
      intro hcc
      rw [hcc] at hc
      simp at hc
    have hrec := ih B hcs
    simp [splitOnChar, hrec, hcne]

/-- `alGet` distributes over append, preferring the front dict. -/
theorem alGet_append :
    ∀ (d e : List (String × List String)) (k : String),
      alGet (d ++ e) k = match alGet d k with
        | some vs => some vs
        | none => alGet e k := by
  intro d e k
  induction d with
  | nil => simp [alGet]
  | cons p d' ih =>
    by_cases hp : p.1 = k
    · simp [alGet, hp]
    · simp only [List.cons_append, alGet, if_neg hp]
      exact ih

theorem alGet_none_of_any_false :
    ∀ (d : List (String × List String)) (k : String),
      d.any (fun q => q.1 == k) = false → alGet d k = none := by
  intro d k
  induction d with
  | nil => intro _; rfl
  | cons p d' ih =>
    intro h
    simp only [List.any_cons, Bool.or_eq_false_iff] at h
    have hp : ¬ p.1 = k := by
      intro hh
      rw [hh] at h
      simp at h
    simp only [alGet, if_neg hp]
    exact ih h.2

theorem alGet_some_of_any :
    ∀ (d : List (String × List String)) (k : String),
      d.any (fun q => q.1 == k) = true → ∃ vs, alGet d k = some vs := by
  intro d k
  induction d with
  | nil => intro h; exact Bool.noConfusion h
  | cons p d' ih =>
    intro h
    by_cases hp : p.1 = k
    · exact ⟨p.2, by simp [alGet, hp]⟩
    · simp only [List.any_cons, Bool.or_eq_true] at h
      rcases h with h | h
      · exact absurd (by simpa using h) hp
      · obtain ⟨vs, hvs⟩ := ih h
        exact ⟨vs, by simp [alGet, hp, hvs]⟩

/-- The value-append map of `qsInsert` acts on `k`'s entry. -/
theorem alGet_map_self :
    ∀ (d : List (String × List String)) (k : String) (v : String),
      alGet (d.map fun q => if q.1 == k then (q.1, q.2 ++ [v]) else q) k =
        (alGet d k).map (· ++ [v]) := by
  intro d k v
  induction d with
  | nil => rfl
  | cons q d' ih =>
    by_cases hq : q.1 = k
    · simp [alGet, hq]
    · have hqb : (q.1 == k) = false := by simp [hq]
      simp only [List.map_cons, hqb, Bool.false_eq_true, if_false, alGet, if_neg hq]
      exact ih

/-- The value-append map of `qsInsert` leaves other keys unchanged. -/
theorem alGet_map_other :
    ∀ (d : List (String × List String)) (k' v k : String), k' ≠ k →
      alGet (d.map fun q => if q.1 == k' then (q.1, q.2 ++ [v]) else q) k = alGet d k := by
  intro d k' v k hne
  induction d with
  | nil => rfl
  | cons q d' ih =>
    by_cases hqk' : (q.1 == k') = true
    · have hq1 : q.1 = k' := by simpa using hqk'
      have hqk : ¬ q.1 = k := fun hh => hne (hq1 ▸ hh)
      simp only [List.map_cons, hqk', if_true, alGet, if_neg hqk]
      exact ih
    · have hqk'f : (q.1 == k') = false := by
        cases h2 : (q.1 == k')
        · rfl
        · exact absurd h2 hqk'
      simp only [List.map_cons, hqk'f, Bool.false_eq_true, if_false, alGet]
      by_cases hqk : q.1 = k
      · simp [hqk]
      · simp only [if_neg hqk]
        exact ih

/-- Inserting under key `k` appends to `k`'s (possibly missing) value list. -/
theorem alGet_qsInsert_self (d : List (String × List String)) (k v : String) :
    alGet (qsInsert d k v) k = some (((alGet d k).getD []) ++ [v]) := by
  by_cases hany : d.any (fun q => q.1 == k) = true
  · obtain ⟨vs, hvs⟩ := alGet_some_of_any d k hany
    simp only [qsInsert, hany, if_true]
    rw [alGet_map_self, hvs]
    rfl
  · have hany' : d.any (fun q => q.1 == k) = false := by
      cases h2 : d.any (fun q => q.1 == k)
      · rfl
      · exact absurd h2 hany
    have hnone := alGet_none_of_any_false d k hany'
    simp only [qsInsert, hany', Bool.false_eq_true, if_false]
    rw [alGet_append, hnone]
    simp [alGet]

/-- Inserting under a different key leaves `k`'s entry unchanged. -/
theorem alGet_qsInsert_other (d : List (String × List String)) (k' v k : String)
    (hne : k' ≠ k) : alGet (qsInsert d k' v) k = alGet d k := by
  by_cases hany : d.any (fun q => q.1 == k') = true
  · simp only [qsInsert, hany, if_true]
    exact alGet_map_other d k' v k hne
  · have hany' : d.any (fun q => q.1 == k') = false := by
      cases h2 : d.any (fun q => q.1 == k')
      · rfl
      · exact absurd h2 hany
    simp only [qsInsert, hany', Bool.false_eq_true, if_false]
    rw [alGet_append]
    have hsingle : alGet [(k', [v])] k = none := by
      simp only [alGet]
      rw [if_neg hne]
    cases halg : alGet d k with
    | some vs => simp
    | none => simp [hsingle]

/-- The dict fold of `parse_qs`: `k`'s list collects the values of `k`'s
pairs, in order, appended to whatever the accumulator already holds. -/
theorem qsFold_spec :
    ∀ (ps : List (String × String)) (d : List (String × List String)) (k : String),
      (∀ vs, alGet d k = some vs →
        alGet (ps.foldl (fun d p => qsInsert d p.1 p.2) d) k =
          some (vs ++ (ps.filter (fun p => p.1 == k)).map (·.2))) ∧
      (alGet d k = none →
        alGet (ps.foldl (fun d p => qsInsert d p.1 p.2) d) k =
          (if (ps.filter (fun p => p.1 == k)).map (·.2) = [] then none
           else some ((ps.filter (fun p => p.1 == k)).map (·.2)))) := by
  intro ps
  induction ps with
  | nil =>
    intro d k
    constructor
    · intro vs hvs
      simpa using hvs
    · intro hnone
      simpa using hnone
  | cons p ps' ih =>
    intro d k
    by_cases hpk : (p.1 == k) = true
    · have hp1 : p.1 = k := by simpa using hpk
      constructor
      · intro vs hvs
        have hins : alGet (qsInsert d p.1 p.2) k = some (vs ++ [p.2]) := by
          rw [hp1, alGet_qsInsert_self, hvs]
          rfl
        have := (ih (qsInsert d p.1 p.2) k).1 (vs ++ [p.2]) hins
        simp only [List.foldl_cons]
        rw [this]
        simp [List.filter_cons, hpk]
      · intro hnone
        have hins : alGet (qsInsert d p.1 p.2) k = some [p.2] := by
          rw [hp1, alGet_qsInsert_self, hnone]
          rfl
        have := (ih (qsInsert d p.1 p.2) k).1 [p.2] hins
        simp only [List.foldl_cons]
        rw [this]
        simp [List.filter_cons, hpk]
    · have hpne : p.1 ≠ k := by
        intro hh
        rw [hh] at hpk
        simp at hpk
      have hins : alGet (qsInsert d p.1 p.2) k = alGet d k :=
        alGet_qsInsert_other d p.1 p.2 k hpne
      have hpkf : (p.1 == k) = false := by
        cases h2 : (p.1 == k)
        · rfl
        · exact absurd h2 hpk
      constructor
      · intro vs hvs
        have := (ih (qsInsert d p.1 p.2) k).1 vs (hins.trans hvs)
        simp only [List.foldl_cons]
        rw [this]
        simp [List.filter_cons, hpkf]
      · intro hnone
        have := (ih (qsInsert d p.1 p.2) k).2 (hins.trans hnone)
        simp only [List.foldl_cons]
        rw [this]
        have hfc : List.filter (fun q => q.1 == k) (p :: ps') =
            List.filter (fun q => q.1 == k) ps' := by
          simp [List.filter_cons, hpkf]
        rw [hfc]

/-- Head of the collected values = mapped first hit. -/
theorem filter_map_head :
    ∀ (ps : List (String × String)) (k : String),
      ((ps.filter (fun p => p.1 == k)).map (·.2)).head? =
        (ps.find? (fun p => p.1 == k)).map (·.2) := by
  intro ps k
  induction ps with
  | nil => rfl
  | cons p ps' ih =>
    by_cases hpk : (p.1 == k) = true
    · simp [List.filter_cons, List.find?_cons, hpk]
    · have hpkf : (p.1 == k) = false := by
        cases h2 : (p.1 == k)
        · rfl
        · exact absurd h2 hpk
      simp only [List.filter_cons, List.find?_cons, hpkf, Bool.false_eq_true, if_false]
      exact ih

/-- `parse_qs(qs).get(k, [None])[0]` is the value of the first `k` pair. -/
theorem qsGetFirst_find (qs : List Char) (k : String) :
    qsGetFirst qs k = ((parseQsl qs).find? (fun p => p.1 == k)).map (·.2) := by
  have hfold := (qsFold_spec (parseQsl qs) [] k).2 rfl
  unfold qsGetFirst parseQs
  rw [hfold]
  by_cases hv : ((parseQsl qs).filter (fun p => p.1 == k)).map (·.2) = []
  · rw [if_pos hv]
    rw [← filter_map_head, hv]
    rfl
  · rw [if_neg hv]
    exact filter_map_head (parseQsl qs) k

/-- An identifier-class character (alphanumeric, `-`, `_`) is none of the
URL-significant characters. -/
theorem idChar_ne {c : Char} (h : (c.isAlphanum || c == '-' || c == '_') = true)
    (d : Char) (hd : (d.isAlphanum || d == '-' || d == '_') = false) : ¬ c = d := by
  intro hcd
  rw [hcd] at h
  rw [h] at hd
  exact Bool.noConfusion hd

/-- `.replace('+', ' ')` then `unquote` is the identity on `+`/`%`-free text. -/
theorem unquotePlus_id {X : List Char}
    (hplus : ∀ c ∈ X, ¬ c = '+') (hpct : ∀ c ∈ X, ¬ c = '%') :
    unquotePlusL X = X := by
  unfold unquotePlusL
  have hmap : X.map (fun c => if c = '+' then ' ' else c) = X := by
    rw [show X.map (fun c => if c = '+' then ' ' else c) = X.map id from
      List.map_congr_left (fun c hc => if_neg (hplus c hc))]
    exact List.map_id X
  rw [hmap]
  unfold pyUnquote
  have hany : X.any (· == '%') = false := by
    rw [List.any_eq_false]
    intro c hc
    simp [hpct c hc]
  rw [hany]
  rfl

/-- The first field of the query `v=X&...` decodes to the pair `("v", X)`,
so the first occurrence of parameter `v` is `X`. -/
theorem qsGetFirst_watch (X q : List Char) (hXne : X ≠ [])
    (hX : ∀ c ∈ X, (c.isAlphanum || c == '-' || c == '_') = true) :
    qsGetFirst ('v' :: '=' :: (X ++ '&' :: q)) "v" = some (String.mk X) := by
  rw [qsGetFirst_find]
  have hrw : ('v' :: '=' :: (X ++ '&' :: q)) = ('v' :: '=' :: X) ++ '&' :: q := by simp
  have hall : ('v' :: '=' :: X).all (fun c => !(c == '&')) = true := by
    rw [List.all_eq_true]
    intro c hc
    simp only [List.mem_cons] at hc
    rcases hc with rfl | rfl | hcX
    · decide
    · decide
    · simpa using idChar_ne (hX c hcX) '&' (by decide)
  have hsplit : splitOnChar '&' (('v' :: '=' :: X) ++ '&' :: q) =
      ('v' :: '=' :: X) :: splitOnChar '&' q := splitOnChar_append_nosep q hall
  unfold parseQsl
  rw [if_neg (by simp), hrw, hsplit]
  simp only [List.filterMap_cons]
  have hsf : splitOnFirst '=' ('v' :: '=' :: X) = some (['v'], X) := by
    simp [splitOnFirst]
  rw [hsf]
  simp only [if_neg (by simp : ¬ ('v' :: '=' :: X) = []), if_neg hXne]
  have hv : String.mk (unquotePlusL ['v']) = "v" := rfl
  have hXid : unquotePlusL X = X :=
    unquotePlus_id (fun c hc => idChar_ne (hX c hc) '+' (by decide))
      (fun c hc => idChar_ne (hX c hc) '%' (by decide))
  rw [hv, hXid]
  rw [List.find?_cons]
  rw [show (("v", String.mk X).1 == ("v" : String)) = true from by simp]
  rfl

/-- From the computed `urlsplit` pieces of a watch URL, `extract_video_id`
returns the first `v` value `X`. -/
theorem extract_of_split (url : String) (X q frag : List Char)
    (hXne : X ≠ []) (hX : ∀ c ∈ X, (c.isAlphanum || c == '-' || c == '_') = true)
    (hsplit : pyUrlsplit url = .ok ⟨"https".data, "www.youtube.com".data, "/watch".data,
      'v' :: '=' :: (X ++ '&' :: q), frag⟩) :
    extract_video_id url = .ok (some (String.mk X)) := by
  have hparse : pyUrlparse url = .ok ⟨"https".data, "www.youtube.com".data, "/watch".data, [],
      'v' :: '=' :: (X ++ '&' :: q), frag⟩ := by
    simp only [pyUrlparse, hsplit]
    rw [if_neg (by intro hcon; exact absurd hcon.2 (by decide))]
  simp only [extract_video_id, hparse]
  rw [if_neg (by decide), if_pos (by decide :
      prHostname "www.youtube.com".data = some "www.youtube.com" ∨
      prHostname "www.youtube.com".data = some "youtube.com")]
  simp only [if_true]
  rw [qsGetFirst_watch X q hXne hX]

/-- For every URL `https://www.youtube.com/watch?v=X&R` with `X` a nonempty
identifier-class string and `R` arbitrary, `extract_video_id` returns `X`. -/
theorem extract_watch_concrete (X R : String) (hXne : X ≠ "")
    (hX : ∀ c ∈ X.data, (c.isAlphanum || c == '-' || c == '_') = true) :
    extract_video_id ("https://www.youtube.com/watch?v=" ++ X ++ "&" ++ R) =
      .ok (some X) := by
  have hXdne : X.data ≠ [] := fun hh => hXne (congrArg String.mk hh)
  have hdata : ("https://www.youtube.com/watch?v=" ++ X ++ "&" ++ R).data =
      "https://www.youtube.com/watch?v=".data ++ (X.data ++ '&' :: R.data) := by
    conv_lhs => rw [String.data_append, String.data_append, String.data_append]
    rw [show ("&" : String).data = ['&'] from rfl]
    simp [List.append_assoc]
  have hpreA : urlPre ("https://www.youtube.com/watch?v=" ++ X ++ "&" ++ R) =
      "https://www.youtube.com/watch?v=".data ++
        (X.data ++ '&' :: R.data.filter (fun c => !isUnsafeUrlByte c)) := by
    unfold urlPre
    rw [hdata]
    rw [dw_append_of_break _ (by decide)]
    rw [show "https://www.youtube.com/watch?v=".data.dropWhile isC0OrSpace =
      "https://www.youtube.com/watch?v=".data from by decide]
    rw [List.filter_append, List.filter_append]
    rw [show "https://www.youtube.com/watch?v=".data.filter (fun c => !isUnsafeUrlByte c) =
      "https://www.youtube.com/watch?v=".data from by decide]
    rw [List.filter_eq_self.mpr (fun c hc => by
      have h1 := idChar_ne (hX c hc) '\t' (by decide)
      have h2 := idChar_ne (hX c hc) '\r' (by decide)
      have h3 := idChar_ne (hX c hc) '\n' (by decide)
      simp [isUnsafeUrlByte, h1, h2, h3])]
    rw [List.filter_cons, if_pos (by decide)]
  have hfind : findIdxA (· == ':') ("https://www.youtube.com/watch?v=".data ++
      (X.data ++ '&' :: R.data.filter (fun c => !isUnsafeUrlByte c))) = some 5 :=
    findIdxA_append_some _ (by decide)
  have hss : schemeSplit ("https://www.youtube.com/watch?v=".data ++
      (X.data ++ '&' :: R.data.filter (fun c => !isUnsafeUrlByte c))) =
      ("https".data, "//www.youtube.com/watch?v=".data ++
        (X.data ++ '&' :: R.data.filter (fun c => !isUnsafeUrlByte c))) := by
    simp only [schemeSplit, hfind]
    rw [headD_append (by decide), List.take_append_of_le_length (by decide)]
    rw [if_pos ⟨by decide, by decide, by decide⟩]
    rw [List.drop_append_of_le_length (by decide)]
    rw [show ("https://www.youtube.com/watch?v=".data.take 5).map lowerChar =
      "https".data from by decide]
    rw [show "https://www.youtube.com/watch?v=".data.drop 6 =
      "//www.youtube.com/watch?v=".data from by decide]
  have hafter : urlAfterScheme ("https://www.youtube.com/watch?v=" ++ X ++ "&" ++ R) =
      "//www.youtube.com/watch?v=".data ++
        (X.data ++ '&' :: R.data.filter (fun c => !isUnsafeUrlByte c)) := by
    unfold urlAfterScheme
    rw [hpreA, hss]
  have hscheme : urlScheme ("https://www.youtube.com/watch?v=" ++ X ++ "&" ++ R) =
      "https".data := by
    unfold urlScheme
    rw [hpreA, hss]
  have htk2 : ("//www.youtube.com/watch?v=".data ++
      (X.data ++ '&' :: R.data.filter (fun c => !isUnsafeUrlByte c))).take 2 = ['/', '/'] := by
    rw [List.take_append_of_le_length (by decide)]
    decide
  have hnetloc : urlNetloc ("https://www.youtube.com/watch?v=" ++ X ++ "&" ++ R) =
      "www.youtube.com".data := by
    simp only [urlNetloc]
    rw [hafter, htk2, if_pos rfl]
    rw [List.drop_append_of_le_length (by decide)]
    rw [show "//www.youtube.com/watch?v=".data.drop 2 =
      "www.youtube.com/watch?v=".data from by decide]
    rw [tw_append_of_break _ (by decide)]
    decide
  have hu2eq : (("//www.youtube.com/watch?v=".data ++
      (X.data ++ '&' :: R.data.filter (fun c => !isUnsafeUrlByte c))).drop 2).dropWhile
        (fun c => !isNetlocDelim c) =
      "/watch?v=".data ++ (X.data ++ '&' :: R.data.filter (fun c => !isUnsafeUrlByte c)) := by
    rw [List.drop_append_of_le_length (by decide)]
    rw [show "//www.youtube.com/watch?v=".data.drop 2 =
      "www.youtube.com/watch?v=".data from by decide]
    rw [dw_append_of_break _ (by decide)]
    rw [show "www.youtube.com/watch?v=".data.dropWhile (fun c => !isNetlocDelim c) =
      "/watch?v=".data from by decide]
  have hXany : ∀ d : Char, (d.isAlphanum || d == '-' || d == '_') = false →
      X.data.all (fun c => decide (c ≠ d)) = true := by
    intro d hd
    rw [List.all_eq_true]
    intro c hc
    simpa using idChar_ne (hX c hc) d hd
  have hquery : ∀ R2 : List Char,
      (("/watch?v=".data ++ (X.data ++ '&' :: R2)).any (· == '?')) = true ∧
      ("/watch?v=".data ++ (X.data ++ '&' :: R2)).takeWhile (· ≠ '?') = "/watch".data ∧
      (("/watch?v=".data ++ (X.data ++ '&' :: R2)).dropWhile (· ≠ '?')).drop 1 =
        'v' :: '=' :: (X.data ++ '&' :: R2) := by
    intro R2
    refine ⟨?_, ?_, ?_⟩
    · rw [List.any_append]
      rw [show "/watch?v=".data.any (· == '?') = true from by decide]
      rfl
    · rw [tw_append_of_break _ (by decide)]
      decide
    · rw [dw_append_of_break _ (by decide)]
      rw [show "/watch?v=".data.dropWhile (· ≠ '?') = ['?', 'v', '='] from by decide]
      simp
  by_cases hfr : (("/watch?v=".data ++
      (X.data ++ '&' :: R.data.filter (fun c => !isUnsafeUrlByte c))).any (· == '#')) = true
  · -- a fragment is present (necessarily inside R): it is split off first
    have hu3 : ("/watch?v=".data ++
        (X.data ++ '&' :: R.data.filter (fun c => !isUnsafeUrlByte c))).takeWhile (· ≠ '#') =
        "/watch?v=".data ++ (X.data ++ '&' ::
          (R.data.filter (fun c => !isUnsafeUrlByte c)).takeWhile (· ≠ '#')) := by
      rw [tw_append_of_all _ (by decide), tw_append_of_all _ (hXany '#' (by decide)),
        List.takeWhile_cons, if_pos (by decide)]
    obtain ⟨hq1, hq2, hq3⟩ :=
      hquery ((R.data.filter (fun c => !isUnsafeUrlByte c)).takeWhile (· ≠ '#'))
    refine extract_of_split _ X.data
      ((R.data.filter (fun c => !isUnsafeUrlByte c)).takeWhile (· ≠ '#'))
      ((("/watch?v=".data ++ (X.data ++ '&' ::
        R.data.filter (fun c => !isUnsafeUrlByte c))).dropWhile (· ≠ '#')).drop 1)
      hXdne hX ?_
    simp only [pyUrlsplit]
    rw [hafter, hscheme, hnetloc, htk2, if_pos rfl, hu2eq]
    rw [show netlocBad "www.youtube.com".data = false from by decide, if_neg (by decide)]
    rw [show ("www.youtube.com".data.any (· == '[')) = false from by decide, if_neg (by decide)]
    rw [show ("www.youtube.com".data.all (fun c => c.toNat < 128)) = true from by decide]
    rw [if_neg (by decide)]
    rw [hfr, if_pos rfl, if_pos rfl, hu3]
    rw [hq1, if_pos rfl, if_pos rfl, hq2, hq3]
  · -- no fragment anywhere: the url passes through unchanged
    have hfr' : (("/watch?v=".data ++
        (X.data ++ '&' :: R.data.filter (fun c => !isUnsafeUrlByte c))).any (· == '#')) = false := by
      cases h2 : (("/watch?v=".data ++
          (X.data ++ '&' :: R.data.filter (fun c => !isUnsafeUrlByte c))).any (· == '#'))
      · rfl
      · exact absurd h2 hfr
    obtain ⟨hq1, hq2, hq3⟩ := hquery (R.data.filter (fun c => !isUnsafeUrlByte c))
    refine extract_of_split _ X.data (R.data.filter (fun c => !isUnsafeUrlByte c)) []
      hXdne hX ?_
    simp only [pyUrlsplit]
    rw [hafter, hscheme, hnetloc, htk2, if_pos rfl, hu2eq]
    rw [show netlocBad "www.youtube.com".data = false from by decide, if_neg (by decide)]
    rw [show ("www.youtube.com".data.any (· == '[')) = false from by decide, if_neg (by decide)]
    rw [show ("www.youtube.com".data.all (fun c => c.toNat < 128)) = true from by decide]
    rw [if_neg (by decide)]
    rw [hfr', if_neg (by decide : ¬(false = true)), if_neg (by decide : ¬(false = true))]
    rw [hq1, if_pos rfl, if_pos rfl, hq2, hq3]

/-- C5: for every URL whose parse has host `www.youtube.com` or `youtube.com`
and path exactly `/watch`, `extract_video_id` returns the first occurrence of
query parameter `v` (first conjunct), where the first-occurrence reading is
exact: `qsGetFirst` is the first `v` field of the parsed query in document
order (second conjunct) and is absent when no field has key `v` (third
conjunct); in particular every URL of the concrete form
`https://www.youtube.com/watch?v=X&R` with `X` a nonempty identifier-class
string yields `X` (fourth conjunct). -/
theorem claim_C5 :
    (∀ (url : String) (pr : ParseRes), pyUrlparse url = .ok pr →
      (prHostname pr.netloc = some "www.youtube.com" ∨
        prHostname pr.netloc = some "youtube.com") →
      pr.path = "/watch".data →
      extract_video_id url = .ok (qsGetFirst pr.query "v")) ∧
    (∀ qs : List Char, qsGetFirst qs "v" =
      ((parseQsl qs).find? (fun p => p.1 == "v")).map (fun p => p.2)) ∧
    (∀ qs : List Char, (∀ p ∈ parseQsl qs, p.1 ≠ "v") → qsGetFirst qs "v" = none) ∧
    (∀ X R : String, X ≠ "" →
      (∀ c ∈ X.data, (c.isAlphanum || c == '-' || c == '_') = true) →
      extract_video_id ("https://www.youtube.com/watch?v=" ++ X ++ "&" ++ R) =
        .ok (some X)) := by
  refine ⟨?_, ?_, ?_, ?_⟩
  · intro url pr hpr hhost hpath
    have hne : ¬ prHostname pr.netloc = some "youtu.be" := by
      rcases hhost with h | h <;>
        · rw [h]
          intro hc
          exact absurd (Option.some.inj hc) (by decide)
    simp only [extract_video_id, hpr]
    rw [if_neg hne, if_pos hhost, if_pos hpath]
  · intro qs
    exact qsGetFirst_find qs "v"
  · intro qs hq
    rw [qsGetFirst_find, List.find?_eq_none.mpr (fun x hx => by simpa using hq x hx)]
    rfl
  · intro X R hXne hX
    exact extract_watch_concrete X R hXne hX

/-- C5 witness: a concrete watch URL with a trailing parameter. -/
theorem claim_C5_witness :
    extract_video_id "https://www.youtube.com/watch?v=abc&t=1s" = .ok (some "abc") := by
  have h := claim_C5.2.2.2 "abc" "t=1s" (by decide) (by decide)
  exact h
